import Mathlib

/-!
Shallow embedding of the maubot `urandom` plugin (src/urandom.py) and proofs
about its command-argument grammar and randomized-output generator.

Python strings that may carry arbitrary codepoints (including lone
surrogates, which `chr` can produce in unicode-range mode) are modelled as
`List Nat` of codepoints (`PyStr`).  Argument strings coming from the chat
message are modelled as Lean `String`.  Randomness (`os.urandom`,
`random.SystemRandom`) is modelled by an explicit oracle of streams, so that
properties quantify over every possible sequence of random draws.
-/

namespace Urandom

/-- A value in the argument map: either boolean `True` (flag with no `=`)
or a string value.  Mirrors `Args = Dict[str, Union[bool, str]]`;
`False` never occurs. -/
inductive ArgVal
  | flagTrue
  | str (s : String)
  deriving DecidableEq, Repr

/-- The argument map.  The Python dict built by the comprehension in
`parse_args` is modelled as the token list; `lookupArg` returns the value
of the last occurrence of a key, which is exactly the dict-overwrite
semantics of the comprehension. -/
abbrev Args := List (String × ArgVal)

/-- Dict lookup: the last occurrence of a key wins (dict comprehension
overwrite semantics). -/
def lookupArg (args : Args) (k : String) : Option ArgVal :=
  args.reverse.lookup k

/-- `key in args` (Python dict membership). -/
def hasArg (args : Args) (k : String) : Bool :=
  (lookupArg args k).isSome

/-- A Python `str` as a list of codepoints (may include lone surrogates,
which Lean `Char` cannot carry). -/
abbrev PyStr := List Nat

/-- Codepoints of a Lean string. -/
def pyStr (s : String) : PyStr :=
  s.toList.map Char.toNat

/-- ASCII lower-casing of one character (`str.lower()` restricted to
ASCII; argument names are ASCII in every documented flag). -/
def lowerChar (c : Char) : Char :=
  if 65 ≤ c.toNat ∧ c.toNat ≤ 90 then Char.ofNat (c.toNat + 32) else c

/-- ASCII upper-casing of one character (`str.upper()` restricted to
ASCII). -/
def upperChar (c : Char) : Char :=
  if 97 ≤ c.toNat ∧ c.toNat ≤ 122 then Char.ofNat (c.toNat - 32) else c

/-- `s.split(sep)` for a one-character separator: split on every
occurrence, keeping empty pieces (Python `str.split` with an explicit
separator). -/
def splitOnChar (sep : Char) : List Char → List (List Char)
  | [] => [[]]
  | c :: rest =>
    let r := splitOnChar sep rest
    if c = sep then [] :: r
    else (c :: r.headD []) :: r.tail

/-- `str.strip()` (whitespace restricted to the ASCII whitespace
characters). -/
def isSpaceChar (c : Char) : Bool :=
  c.toNat = 32 || c.toNat = 9 || c.toNat = 10 || c.toNat = 13 || c.toNat = 11 || c.toNat = 12

def trimList (cs : List Char) : List Char :=
  ((cs.dropWhile isSpaceChar).reverse.dropWhile isSpaceChar).reverse

/-- `tok.split("=", 1)`: split a token on the first `=`.  Returns the part
before the first `=` and, when a `=` is present, the part after it. -/
def splitFirstEq (tok : List Char) : List Char × Option (List Char) :=
  match tok.span (fun c => c ≠ '=') with
  | (_, []) => (tok, none)
  | (pre, _ :: post) => (pre, some post)

/-- One token of the argument string: name lower-cased; `=`-less tokens
become boolean `True`; values keep their original case. -/
def tokenPair (tok : List Char) : String × ArgVal :=
  match splitFirstEq tok with
  | (name, some v) => (String.mk (name.map lowerChar), ArgVal.str (String.mk v))
  | (name, none) => (String.mk (name.map lowerChar), ArgVal.flagTrue)

/-- `parse_args` from the source: split the raw string on single spaces,
drop empty tokens, split each token on the first `=`.  (The `""` first
component of the Python return value is dropped.) -/
def parse_args (args : String) : Args :=
  ((splitOnChar ' ' args.toList).filter (fun t => t ≠ [])).map tokenPair

/-- Python `int(s)` / `int(True)` conversion of an argument value:
`int(True) = 1`; strings are parsed in base 10. -/
def digitVal (base : Nat) (c : Char) : Option Nat :=
  let v :=
    if 48 ≤ c.toNat ∧ c.toNat ≤ 57 then some (c.toNat - 48)
    else if 97 ≤ c.toNat ∧ c.toNat ≤ 122 then some (c.toNat - 87)
    else if 65 ≤ c.toNat ∧ c.toNat ≤ 90 then some (c.toNat - 55)
    else none
  match v with
  | some d => if d < base then some d else none
  | none => none

def digitsVal (base : Nat) : List Char → Nat → Option Nat
  | [], acc => some acc
  | c :: rest, acc =>
    match digitVal base c with
    | some d => digitsVal base rest (acc * base + d)
    | none => none

def parseDigits (base : Nat) (cs : List Char) : Option Nat :=
  match cs with
  | [] => none
  | _ => digitsVal base cs 0

/-- Strip an optional `0x`/`0X` (base 16) or `0b`/`0B` (base 2) prefix,
as Python `int(s, base)` does. -/
def stripBasePre (base : Nat) (cs : List Char) : List Char :=
  match base, cs with
  | 16, '0' :: 'x' :: rest => rest
  | 16, '0' :: 'X' :: rest => rest
  | 2, '0' :: 'b' :: rest => rest
  | 2, '0' :: 'B' :: rest => rest
  | _, _ => cs

/-- Python `int(s, base)` restricted to the forms exercised here: optional
sign, optional base prefix, one or more digits.  (Underscore digit
separators, surrounding whitespace and non-ASCII decimal digits are not
modelled.) -/
def pyIntBase (base : Nat) (cs : List Char) : Option Int :=
  let signed : Bool × List Char :=
    match cs with
    | '-' :: rest => (true, rest)
    | '+' :: rest => (false, rest)
    | _ => (false, cs)
  match parseDigits base (stripBasePre base signed.2) with
  | none => none
  | some n => some (if signed.1 then -(Int.ofNat n) else Int.ofNat n)

/-- `int()` applied to an argument-map value. -/
def pyInt : ArgVal → Option Int
  | ArgVal.flagTrue => some 1
  | ArgVal.str s => pyIntBase 10 s.toList

/-- How a part/range parse can fail: `value` is a `ValueError` (including
`UnicodeDecodeError`, a subclass), caught by the handler's
`except (KeyError, ValueError)`; `fatal` is any other exception (the
`TypeError` raised by `ord` on a multi-character unicode-escape result),
which propagates out of the handler. -/
inductive PErr
  | value
  | fatal
  deriving DecidableEq, Repr

instance {ε α : Type} [DecidableEq ε] [DecidableEq α] : DecidableEq (Except ε α) := fun x y =>
  match x, y with
  | Except.ok a, Except.ok b =>
    if h : a = b then isTrue (by rw [h]) else isFalse (by simp [h])
  | Except.error a, Except.error b =>
    if h : a = b then isTrue (by rw [h]) else isFalse (by simp [h])
  | Except.ok _, Except.error _ => isFalse (by simp)
  | Except.error _, Except.ok _ => isFalse (by simp)

/-- `val.encode("utf-8").decode("unicode-escape")`, restricted to the
escape forms exercised here: `\uXXXX`, `\UXXXXXXXX`, `\xXX`, octal
escapes, the single-character escapes, and literal passthrough of an
unrecognized escape (backslash kept).  `none` models a
`UnicodeDecodeError` (truncated escape).  `\N{...}` name escapes and the
utf-8/latin-1 mojibake of non-ASCII input are not modelled. -/
def unicodeUnescape : List Char → Option (List Nat)
  | [] => some []
  | '\\' :: 'u' :: rest =>
    match rest with
    | a :: b :: c :: d :: rest2 =>
      match parseDigits 16 [a, b, c, d] with
      | some v => (unicodeUnescape rest2).map (fun t => v :: t)
      | none => none
    | _ => none
  | '\\' :: 'U' :: rest =>
    match rest with
    | a :: b :: c :: d :: e :: f :: g :: h :: rest2 =>
      match parseDigits 16 [a, b, c, d, e, f, g, h] with
      | some v => if v < 0x110000 then (unicodeUnescape rest2).map (fun t => v :: t) else none
      | none => none
    | _ => none
  | '\\' :: 'x' :: rest =>
    match rest with
    | a :: b :: rest2 =>
      match parseDigits 16 [a, b] with
      | some v => (unicodeUnescape rest2).map (fun t => v :: t)
      | none => none
    | _ => none
  | '\\' :: 'n' :: rest => (unicodeUnescape rest).map (fun t => 10 :: t)
  | '\\' :: 't' :: rest => (unicodeUnescape rest).map (fun t => 9 :: t)
  | '\\' :: 'r' :: rest => (unicodeUnescape rest).map (fun t => 13 :: t)
  | '\\' :: 'a' :: rest => (unicodeUnescape rest).map (fun t => 7 :: t)
  | '\\' :: 'b' :: rest => (unicodeUnescape rest).map (fun t => 8 :: t)
  | '\\' :: 'f' :: rest => (unicodeUnescape rest).map (fun t => 12 :: t)
  | '\\' :: 'v' :: rest => (unicodeUnescape rest).map (fun t => 11 :: t)
  | '\\' :: '\\' :: rest => (unicodeUnescape rest).map (fun t => 92 :: t)
  | '\\' :: '\'' :: rest => (unicodeUnescape rest).map (fun t => 39 :: t)
  | '\\' :: '\"' :: rest => (unicodeUnescape rest).map (fun t => 34 :: t)
  | '\\' :: c :: rest =>
    if '0' ≤ c ∧ c ≤ '7' then
      match rest with
      | c2 :: c3 :: rest2 =>
        if ('0' ≤ c2 ∧ c2 ≤ '7') ∧ ('0' ≤ c3 ∧ c3 ≤ '7') then
          (unicodeUnescape rest2).map
            (fun t => ((c.toNat - 48) * 64 + (c2.toNat - 48) * 8 + (c3.toNat - 48)) :: t)
        else if '0' ≤ c2 ∧ c2 ≤ '7' then
          (unicodeUnescape (c3 :: rest2)).map
            (fun t => ((c.toNat - 48) * 8 + (c2.toNat - 48)) :: t)
        else (unicodeUnescape (c2 :: c3 :: rest2)).map (fun t => (c.toNat - 48) :: t)
      | [c2] =>
        if '0' ≤ c2 ∧ c2 ≤ '7' then
          some [(c.toNat - 48) * 8 + (c2.toNat - 48)]
        else (unicodeUnescape [c2]).map (fun t => (c.toNat - 48) :: t)
      | [] => some [c.toNat - 48]
    else (unicodeUnescape rest).map (fun t => 92 :: c.toNat :: t)
  | ['\\'] => none
  | c :: rest => (unicodeUnescape rest).map (fun t => c.toNat :: t)

/-- The `\u`-prefixed branch of `_parse_urange_part`:
`ord(val.encode("utf-8").decode("unicode-escape"))`.  A decode failure is
a `ValueError`; `ord` of a result that is not exactly one character is an
uncaught `TypeError`. -/
def unicodeEscapeOrd (val : List Char) : Except PErr Int :=
  match unicodeUnescape val with
  | none => Except.error PErr.value
  | some [c] => Except.ok (Int.ofNat c)
  | some _ => Except.error PErr.fatal

/-- Lift a Python `int(...)` result: parse failure raises `ValueError`. -/
def intOrValueError (v : Option Int) : Except PErr Int :=
  match v with
  | some n => Except.ok n
  | none => Except.error PErr.value

/-- `_parse_urange_part` from the source.  Branch order: `0x` hex, `0b`
binary, `\u` escape, `ord` of a single character (a `TypeError` from
`ord` on a non-single-character string is caught), `int` in base 10. -/
def _parse_urange_part (val : List Char) : Except PErr Int :=
  if List.isPrefixOf ['0', 'x'] val then intOrValueError (pyIntBase 16 val)
  else if List.isPrefixOf ['0', 'b'] val then intOrValueError (pyIntBase 2 val)
  else if List.isPrefixOf ['\\', 'u'] val then unicodeEscapeOrd val
  else
    match val with
    | [c] => Except.ok (Int.ofNat c.toNat)
    | _ => intOrValueError (pyIntBase 10 val)

/-- `parse_urange` from the source.  A single expression with no `-` is a
one-codepoint range (`U+`-prefixed parts are read as hex, case
sensitively here); an expression with a `-` is split on every `-` and
must unpack into exactly two parts (anything else is a `ValueError`),
with `U+`-prefixed expressions (case-insensitively) read as two hex
halves. -/
def parse_urange (val : List Char) : Except PErr (Int × Int) :=
  if ¬ (val.contains '-') then
    match
      (if List.isPrefixOf ['U', '+'] val then intOrValueError (pyIntBase 16 (val.drop 2))
       else _parse_urange_part val) with
    | Except.error e => Except.error e
    | Except.ok c => Except.ok (c, c)
  else if List.isPrefixOf ['U', '+'] (val.map upperChar) then
    match splitOnChar '-' (val.drop 2) with
    | [a, b] =>
      match intOrValueError (pyIntBase 16 a), intOrValueError (pyIntBase 16 b) with
      | Except.ok x, Except.ok y => Except.ok (x, y)
      | Except.error e, _ => Except.error e
      | _, Except.error e => Except.error e
    | _ => Except.error PErr.value
  else
    match splitOnChar '-' val with
    | [a, b] =>
      match _parse_urange_part a, _parse_urange_part b with
      | Except.ok x, Except.ok y => Except.ok (x, y)
      | Except.error e, _ => Except.error e
      | _, Except.error e => Except.error e
    | _ => Except.error PErr.value

/-! ## The byte-mode encoders (`base64` stdlib module and `base65536`) -/

/-- Strip trailing `=` (codepoint 61): `.rstrip("=")`. -/
def rstripEq (l : List Nat) : List Nat :=
  (l.reverse.dropWhile (fun c => c = 61)).reverse

/-- Uppercase hex digit, as a codepoint. -/
def hexDigitU (n : Nat) : Nat := if n < 10 then 48 + n else 55 + n

def hexDigitUInv (c : Nat) : Option Nat :=
  if 48 ≤ c ∧ c ≤ 57 then some (c - 48)
  else if 65 ≤ c ∧ c ≤ 70 then some (c - 55)
  else none

/-- `base64.b16encode`: two uppercase hex digits per byte. -/
def b16encode : List Nat → List Nat
  | [] => []
  | b :: rest => hexDigitU (b / 16) :: hexDigitU (b % 16) :: b16encode rest

/-- Inverse of `b16encode` (canonical base16 decoding). -/
def b16decode : List Nat → Option (List Nat)
  | [] => some []
  | c1 :: c2 :: rest =>
    match hexDigitUInv c1, hexDigitUInv c2, b16decode rest with
    | some h, some l, some t => some ((h * 16 + l) :: t)
    | _, _, _ => none
  | _ => none

/-- Base64 digit (RFC 4648 alphabet), as a codepoint. -/
def b64digit (n : Nat) : Nat :=
  if n < 26 then 65 + n
  else if n < 52 then 71 + n
  else if n < 62 then n - 4
  else if n = 62 then 43
  else 47

def b64digitInv (c : Nat) : Option Nat :=
  if 65 ≤ c ∧ c ≤ 90 then some (c - 65)
  else if 97 ≤ c ∧ c ≤ 122 then some (c - 71)
  else if 48 ≤ c ∧ c ≤ 57 then some (c + 4)
  else if c = 43 then some 62
  else if c = 47 then some 63
  else none

/-- `base64.b64encode`, with `=` padding (codepoint 61). -/
def b64encode : List Nat → List Nat
  | b1 :: b2 :: b3 :: rest =>
    b64digit (b1 / 4) :: b64digit ((b1 % 4) * 16 + b2 / 16) ::
      b64digit ((b2 % 16) * 4 + b3 / 64) :: b64digit (b3 % 64) :: b64encode rest
  | [b1, b2] => [b64digit (b1 / 4), b64digit ((b1 % 4) * 16 + b2 / 16), b64digit ((b2 % 16) * 4), 61]
  | [b1] => [b64digit (b1 / 4), b64digit ((b1 % 4) * 16), 61, 61]
  | [] => []

/-- Inverse of padding-stripped base64. -/
def b64decode : List Nat → Option (List Nat)
  | [] => some []
  | [c1, c2] =>
    match b64digitInv c1, b64digitInv c2 with
    | some s1, some s2 => some [s1 * 4 + s2 / 16]
    | _, _ => none
  | [c1, c2, c3] =>
    match b64digitInv c1, b64digitInv c2, b64digitInv c3 with
    | some s1, some s2, some s3 => some [s1 * 4 + s2 / 16, (s2 % 16) * 16 + s3 / 4]
    | _, _, _ => none
  | c1 :: c2 :: c3 :: c4 :: rest =>
    match b64digitInv c1, b64digitInv c2, b64digitInv c3, b64digitInv c4, b64decode rest with
    | some s1, some s2, some s3, some s4, some t =>
      some ((s1 * 4 + s2 / 16) :: ((s2 % 16) * 16 + s3 / 4) :: ((s3 % 4) * 64 + s4) :: t)
    | _, _, _, _, _ => none
  | _ => none

/-- Base32 digit (RFC 4648 alphabet `A`-`Z`, `2`-`7`), as a codepoint. -/
def b32digit (n : Nat) : Nat := if n < 26 then 65 + n else 24 + n

def b32digitInv (c : Nat) : Option Nat :=
  if 65 ≤ c ∧ c ≤ 90 then some (c - 65)
  else if 50 ≤ c ∧ c ≤ 55 then some (c - 24)
  else none

/-- `base64.b32encode`, with `=` padding. -/
def b32encode : List Nat → List Nat
  | b1 :: b2 :: b3 :: b4 :: b5 :: rest =>
    b32digit (b1 / 8) :: b32digit ((b1 % 8) * 4 + b2 / 64) :: b32digit (b2 / 2 % 32) ::
      b32digit ((b2 % 2) * 16 + b3 / 16) :: b32digit ((b3 % 16) * 2 + b4 / 128) ::
      b32digit (b4 / 4 % 32) :: b32digit ((b4 % 4) * 8 + b5 / 32) :: b32digit (b5 % 32) ::
      b32encode rest
  | [b1, b2, b3, b4] =>
    [b32digit (b1 / 8), b32digit ((b1 % 8) * 4 + b2 / 64), b32digit (b2 / 2 % 32),
     b32digit ((b2 % 2) * 16 + b3 / 16), b32digit ((b3 % 16) * 2 + b4 / 128),
     b32digit (b4 / 4 % 32), b32digit ((b4 % 4) * 8), 61]
  | [b1, b2, b3] =>
    [b32digit (b1 / 8), b32digit ((b1 % 8) * 4 + b2 / 64), b32digit (b2 / 2 % 32),
     b32digit ((b2 % 2) * 16 + b3 / 16), b32digit ((b3 % 16) * 2), 61, 61, 61]
  | [b1, b2] =>
    [b32digit (b1 / 8), b32digit ((b1 % 8) * 4 + b2 / 64), b32digit (b2 / 2 % 32),
     b32digit ((b2 % 2) * 16), 61, 61, 61, 61]
  | [b1] => [b32digit (b1 / 8), b32digit ((b1 % 8) * 4), 61, 61, 61, 61, 61, 61]
  | [] => []

/-- Inverse of padding-stripped base32. -/
def b32decode : List Nat → Option (List Nat)
  | [] => some []
  | [c1, c2] =>
    match b32digitInv c1, b32digitInv c2 with
    | some q1, some q2 => some [q1 * 8 + q2 / 4]
    | _, _ => none
  | [c1, c2, c3, c4] =>
    match b32digitInv c1, b32digitInv c2, b32digitInv c3, b32digitInv c4 with
    | some q1, some q2, some q3, some q4 =>
      some [q1 * 8 + q2 / 4, (q2 % 4) * 64 + q3 * 2 + q4 / 16]
    | _, _, _, _ => none
  | [c1, c2, c3, c4, c5] =>
    match b32digitInv c1, b32digitInv c2, b32digitInv c3, b32digitInv c4, b32digitInv c5 with
    | some q1, some q2, some q3, some q4, some q5 =>
      some [q1 * 8 + q2 / 4, (q2 % 4) * 64 + q3 * 2 + q4 / 16, (q4 % 16) * 16 + q5 / 2]
    | _, _, _, _, _ => none
  | [c1, c2, c3, c4, c5, c6, c7] =>
    match b32digitInv c1, b32digitInv c2, b32digitInv c3, b32digitInv c4, b32digitInv c5,
        b32digitInv c6, b32digitInv c7 with
    | some q1, some q2, some q3, some q4, some q5, some q6, some q7 =>
      some [q1 * 8 + q2 / 4, (q2 % 4) * 64 + q3 * 2 + q4 / 16, (q4 % 16) * 16 + q5 / 2,
            (q5 % 2) * 128 + q6 * 4 + q7 / 8]
    | _, _, _, _, _, _, _ => none
  | c1 :: c2 :: c3 :: c4 :: c5 :: c6 :: c7 :: c8 :: rest =>
    match b32digitInv c1, b32digitInv c2, b32digitInv c3, b32digitInv c4, b32digitInv c5,
        b32digitInv c6, b32digitInv c7, b32digitInv c8, b32decode rest with
    | some q1, some q2, some q3, some q4, some q5, some q6, some q7, some q8, some t =>
      some ((q1 * 8 + q2 / 4) :: ((q2 % 4) * 64 + q3 * 2 + q4 / 16) ::
            ((q4 % 16) * 16 + q5 / 2) :: ((q5 % 2) * 128 + q6 * 4 + q7 / 8) ::
            ((q7 % 8) * 32 + q8) :: t)
    | _, _, _, _, _, _, _, _, _ => none
  | _ => none

/-- The 23 non-alphanumeric codepoints of Python's `_b85alphabet`
(digit values 62..84). -/
def b85extra : List Nat :=
  [33, 35, 36, 37, 38, 40, 41, 42, 43, 45, 59, 60, 61, 62, 63, 64, 94, 95, 96, 123, 124, 125, 126]

/-- Base85 digit (Python `b85encode` alphabet), as a codepoint. -/
def b85digit (n : Nat) : Nat :=
  if n < 10 then 48 + n
  else if n < 36 then 55 + n
  else if n < 62 then 61 + n
  else b85extra.getD (n - 62) 0

def b85digitInv (c : Nat) : Option Nat :=
  if 48 ≤ c ∧ c ≤ 57 then some (c - 48)
  else if 65 ≤ c ∧ c ≤ 90 then some (c - 55)
  else if 97 ≤ c ∧ c ≤ 122 then some (c - 61)
  else (b85extra.findIdx? (fun d => d = c)).map (fun i => 62 + i)

/-- `base64.b85encode` (no padding): a 4-byte group's 32-bit big-endian
value becomes 5 base-85 digits, most significant first (85^4 = 52200625,
85^3 = 614125, 85^2 = 7225); a trailing group of n bytes is zero-padded
to 4 bytes, encoded, and truncated to its first n+1 digits, written out
explicitly per branch. -/
def b85encode : List Nat → List Nat
  | b1 :: b2 :: b3 :: b4 :: rest =>
    b85digit ((b1 * 16777216 + b2 * 65536 + b3 * 256 + b4) / 52200625) ::
    b85digit ((b1 * 16777216 + b2 * 65536 + b3 * 256 + b4) / 614125 % 85) ::
    b85digit ((b1 * 16777216 + b2 * 65536 + b3 * 256 + b4) / 7225 % 85) ::
    b85digit ((b1 * 16777216 + b2 * 65536 + b3 * 256 + b4) / 85 % 85) ::
    b85digit ((b1 * 16777216 + b2 * 65536 + b3 * 256 + b4) % 85) :: b85encode rest
  | [b1, b2, b3] =>
    [b85digit ((b1 * 16777216 + b2 * 65536 + b3 * 256) / 52200625),
     b85digit ((b1 * 16777216 + b2 * 65536 + b3 * 256) / 614125 % 85),
     b85digit ((b1 * 16777216 + b2 * 65536 + b3 * 256) / 7225 % 85),
     b85digit ((b1 * 16777216 + b2 * 65536 + b3 * 256) / 85 % 85)]
  | [b1, b2] =>
    [b85digit ((b1 * 16777216 + b2 * 65536) / 52200625),
     b85digit ((b1 * 16777216 + b2 * 65536) / 614125 % 85),
     b85digit ((b1 * 16777216 + b2 * 65536) / 7225 % 85)]
  | [b1] =>
    [b85digit (b1 * 16777216 / 52200625), b85digit (b1 * 16777216 / 614125 % 85)]
  | [] => []

/-- Inverse of `b85encode`: short trailing groups are padded with the
maximal digit 84 (`~`) before decoding, as `b85decode` does; group
values ≥ 2^32 are rejected. -/
def b85decode : List Nat → Option (List Nat)
  | [] => some []
  | [c1, c2] =>
    match b85digitInv c1, b85digitInv c2 with
    | some d1, some d2 =>
      let v := d1 * 52200625 + d2 * 614125 + 614124
      if v < 4294967296 then some [v / 16777216] else none
    | _, _ => none
  | [c1, c2, c3] =>
    match b85digitInv c1, b85digitInv c2, b85digitInv c3 with
    | some d1, some d2, some d3 =>
      let v := d1 * 52200625 + d2 * 614125 + d3 * 7225 + 7224
      if v < 4294967296 then some [v / 16777216, v / 65536 % 256] else none
    | _, _, _ => none
  | [c1, c2, c3, c4] =>
    match b85digitInv c1, b85digitInv c2, b85digitInv c3, b85digitInv c4 with
    | some d1, some d2, some d3, some d4 =>
      let v := d1 * 52200625 + d2 * 614125 + d3 * 7225 + d4 * 85 + 84
      if v < 4294967296 then some [v / 16777216, v / 65536 % 256, v / 256 % 256] else none
    | _, _, _, _ => none
  | c1 :: c2 :: c3 :: c4 :: c5 :: rest =>
    match b85digitInv c1, b85digitInv c2, b85digitInv c3, b85digitInv c4, b85digitInv c5,
        b85decode rest with
    | some d1, some d2, some d3, some d4, some d5, some t =>
      let v := d1 * 52200625 + d2 * 614125 + d3 * 7225 + d4 * 85 + d5
      if v < 4294967296 then
        some ((v / 16777216) :: (v / 65536 % 256) :: (v / 256 % 256) :: (v % 256) :: t)
      else none
    | _, _, _, _, _, _ => none
  | _ => none

/-- Modelled from the spec: the external `base65536` library (not part of
this repository) packs each pair of input bytes into one output character
drawn from a curated table of 256 disjoint 256-codepoint Unicode blocks,
and a trailing odd byte into a dedicated single-byte padding block.  The
library's concrete block table is modelled as the consecutive blocks
starting at U+3400, with padding block starting at U+1500; the
round-trip property relies only on the blocks being disjoint and
decodable, which the real table also satisfies. -/
def b65536blockStart (b : Nat) : Nat := 0x3400 + b * 256

def b65536padStart : Nat := 0x1500

def b65536encode : List Nat → List Nat
  | b1 :: b2 :: rest => (b65536blockStart b1 + b2) :: b65536encode rest
  | [b1] => [b65536padStart + b1]
  | [] => []

def b65536decode : List Nat → Option (List Nat)
  | [] => some []
  | c :: rest =>
    if 0x1500 ≤ c ∧ c < 0x1600 then
      match rest with
      | [] => some [c - 0x1500]
      | _ => none
    else if 0x3400 ≤ c ∧ c < 0x13400 then
      (b65536decode rest).map (fun t => (c - 0x3400) / 256 :: (c - 0x3400) % 256 :: t)
    else none

/-- Lowercase hex digit, as a codepoint. -/
def hexDigitL (n : Nat) : Nat := if n < 10 then 48 + n else 87 + n

def byteReprChar (b : Nat) : List Nat :=
  if b = 92 then [92, 92]
  else if b = 39 then [92, 39]
  else if b = 9 then [92, 116]
  else if b = 10 then [92, 110]
  else if b = 13 then [92, 114]
  else if 32 ≤ b ∧ b < 127 then [b]
  else [92, 120, hexDigitL (b / 16), hexDigitL (b % 16)]

/-- `str(randomness)` on a `bytes` object: the Python repr `b'...'`
(the quote-selection corner case — CPython switches to double quotes
when the bytes contain `'` but no `"` — is simplified to always using
the single quote). -/
def bytesRepr (bs : List Nat) : List Nat :=
  98 :: 39 :: (bs.flatMap byteReprChar ++ [39])

/-! ## The handler (`RandomBot.urandom`) -/

/-- The messaging effects the handler can perform: `reply` is
`evt.reply(<plain string>)` (errors, help pages, the non-printable
warning); `notice` is the final output message
(`evt.reply(TextMessageEventContent(...))`); `setTopic` is
`client.send_state_event(..., RoomTopicStateEventContent(...))`. -/
inductive Effect
  | reply (s : String)
  | notice (s : PyStr)
  | setTopic (s : PyStr)
  deriving DecidableEq, Repr

/-- How the handler's turn ends: `ok` is a normal return; `error` is an
uncaught exception that the host framework logs (no further effects). -/
inductive Outcome
  | ok
  | error
  deriving DecidableEq, Repr

/-- The randomness consumed in one invocation, as explicit streams:
`bytes` is the `os.urandom` byte stream (taken mod 256), `picks` the
index stream behind `rand.choices`/`rand.shuffle`, and `vals` the offset
stream behind `rand.randrange`.  Quantifying over the oracle quantifies
over every possible sequence of random draws. -/
structure Oracle where
  bytes : Nat → Nat
  picks : Nat → Nat
  vals : Nat → Nat

def constOracle : Oracle := ⟨fun _ => 0, fun _ => 0, fun _ => 0⟩

/-- `unicodedata.category(chr c) == "Cc"`: category Cc is exactly the C0
controls U+0000..U+001F, DELETE U+007F, and the C1 controls
U+0080..U+009F (stable across Unicode versions). -/
def isCc (c : Nat) : Bool :=
  c < 32 || (127 ≤ c && c ≤ 159)

/-- Python `str.replace(pat, rep)`: replace every non-overlapping
occurrence left to right; an empty pattern inserts `rep` before every
character and at the end. -/
def strReplace : List Nat → List Nat → List Nat → List Nat
  | s, [], rep => rep ++ s.flatMap (fun c => c :: rep)
  | [], _ :: _, _ => []
  | c :: s, p :: ps, rep =>
    if List.isPrefixOf (p :: ps) (c :: s) then
      rep ++ strReplace (List.drop ps.length s) (p :: ps) rep
    else c :: strReplace s (p :: ps) rep
termination_by s _ _ => s.length
decreasing_by
  · simp [List.length_drop]
    omega
  · simp

/-- `rand.shuffle`, modelled as repeated removal: the oracle picks an
index among the remaining elements (mod the remaining length), that
element is emitted, and the process recurses on the rest.  Every
permutation the Fisher-Yates shuffle can produce corresponds to some
oracle, and every oracle yields a permutation.  The first argument is
fuel, instantiated with the list length. -/
def shuffleGo : Nat → PyStr → (Nat → Nat) → PyStr
  | 0, _, _ => []
  | _ + 1, [], _ => []
  | fuel + 1, a :: rest, p =>
    let l := a :: rest
    let i := p 0 % l.length
    l.getD i 0 :: shuffleGo fuel (l.eraseIdx i) (fun n => p (n + 1))

def shuffleModel (l : PyStr) (p : Nat → Nat) : PyStr :=
  shuffleGo l.length l p

/-- `rand.choices(alphabet, k=k)`: `k` independent uniform picks from a
nonempty alphabet, each pick modelled as an oracle index mod the
alphabet length. -/
def choicesAlpha (alpha : PyStr) (orc : Oracle) (k : Nat) : PyStr :=
  (List.range k).map (fun i => alpha.getD (orc.picks i % alpha.length) 0)

/-- `length or DEFAULT_LENGTH`: Python `or` takes 64 when the length is
(falsy) zero.  Applied only after the `0 ≤ length ≤ 512` checks. -/
def lenOr64 (length : Int) : Nat :=
  if length = 0 then 64 else length.toNat

/-- The result of the generation phase: `halt` when the handler returned
early (error reply) or raised; `str` when a Python `str` was produced
(with any replies already emitted); `bytes` when `randomness` is still a
`bytes` object (unknown base falls through without returning). -/
inductive GenResult
  | halt (effs : List Effect) (outc : Outcome)
  | str (effs : List Effect) (s : PyStr)
  | bytes (effs : List Effect) (bs : List Nat)
  deriving DecidableEq, Repr

/-- The `space` substitution: `alphabet.replace(args["space"], " ")`.
`none` models the `TypeError` when the `space` flag has no value
(boolean `True`). -/
def spaceSubst (args : Args) (alpha : PyStr) : Option PyStr :=
  match lookupArg args "space" with
  | none => some alpha
  | some (ArgVal.str p) => some (strReplace alpha (pyStr p) [32])
  | some ArgVal.flagTrue => none

/-- Alphabet mode.  A boolean `alphabet` value raises a `TypeError`
whichever sub-branch runs; `random.choices` on an empty population
raises `IndexError`. -/
def alphabetMode (av : ArgVal) (args : Args) (orc : Oracle) (length : Int) : GenResult :=
  match av with
  | ArgVal.flagTrue => GenResult.halt [] Outcome.error
  | ArgVal.str a =>
    match spaceSubst args (pyStr a) with
    | none => GenResult.halt [] Outcome.error
    | some alpha =>
      if hasArg args "permutation" || hasArg args "shuffle" then
        GenResult.str [] (shuffleModel alpha orc.picks)
      else if alpha.length = 0 then GenResult.halt [] Outcome.error
      else GenResult.str [] (choicesAlpha alpha orc (lenOr64 length))

/-- The dedicated zero-endpoint diagnostic (a Java joke), sent verbatim. -/
def javaNPE : String :=
  "Exception in thread \"main\" java.lang.NullPointerException  \n    at Tester.main(Urandom.java:194)"

/-- Result of the range-validation loop. -/
inductive BuildRes
  | ok (ranges : List (Int × Int)) (weights : List Int)
  | zeroEnd
  | invalid
  | fatal
  deriving DecidableEq, Repr

/-- The validation loop over `args["urange"].split(",")`: per item, parse
(after `.strip()`), reject a zero endpoint with the dedicated
diagnostic, check both endpoints against `range(0x110000)`, then store
the half-open pair `(start, end+1)` and the weight `end - start + 1`. -/
def buildRanges : List (List Char) → BuildRes
  | [] => BuildRes.ok [] []
  | u :: rest =>
    match parse_urange (trimList u) with
    | Except.error PErr.value => BuildRes.invalid
    | Except.error PErr.fatal => BuildRes.fatal
    | Except.ok (lo, hi) =>
      if lo = 0 ∨ hi = 0 then BuildRes.zeroEnd
      else if ¬ (0 ≤ lo ∧ lo < 0x110000) then BuildRes.invalid
      else if ¬ (0 ≤ hi ∧ hi < 0x110000) then BuildRes.invalid
      else
        match buildRanges rest with
        | BuildRes.ok rs ws => BuildRes.ok ((lo, hi + 1) :: rs) ((hi - lo + 1) :: ws)
        | e => e

/-- The draw loop: `chr(rand.randrange(start, end)) for start, end in
rand.choices(ranges, weights, k=k)`.  Each pick selects a stored
half-open range (any index the weighted bisect can land on); `randrange`
on an empty range raises `ValueError` (uncaught), modelled as `none`. -/
def genDraw (ranges : List (Int × Int)) (orc : Oracle) : Nat → Nat → Option (List Int)
  | _, 0 => some []
  | i, k + 1 =>
    let r := ranges.getD (orc.picks i % ranges.length) (0, 0)
    if r.2 ≤ r.1 then none
    else
      match genDraw ranges orc (i + 1) k with
      | none => none
      | some out => some ((r.1 + Int.ofNat (orc.vals i % (r.2 - r.1).toNat)) :: out)

/-- Unicode-range mode.  A boolean `urange` value raises
`AttributeError` on `.split`; `random.choices` raises `ValueError` when
the weight total is not positive (uncaught, outside the `try`). -/
def urangeMode (uv : ArgVal) (_args : Args) (orc : Oracle) (length : Int) : GenResult :=
  match uv with
  | ArgVal.flagTrue => GenResult.halt [] Outcome.error
  | ArgVal.str u =>
    match buildRanges (splitOnChar ',' u.toList) with
    | BuildRes.zeroEnd => GenResult.halt [Effect.reply javaNPE] Outcome.ok
    | BuildRes.invalid => GenResult.halt [Effect.reply "Invalid unicode range"] Outcome.ok
    | BuildRes.fatal => GenResult.halt [] Outcome.error
    | BuildRes.ok ranges weights =>
      if weights.sum ≤ 0 then GenResult.halt [] Outcome.error
      else
        match genDraw ranges orc 0 (lenOr64 length) with
        | none => GenResult.halt [] Outcome.error
        | some out => GenResult.str [] (out.map Int.toNat)

/-- Byte mode: draw the bytes, then dispatch on `args.get("base", "64")`.
The unknown-base branch replies but does not return, leaving `randomness`
a `bytes` object. -/
def byteMode (args : Args) (orc : Oracle) (length : Int) : GenResult :=
  let bs := (List.range (lenOr64 length)).map (fun i => orc.bytes i % 256)
  let base := (lookupArg args "base").getD (ArgVal.str "64")
  if base = ArgVal.str "raw" then GenResult.str [] (bytesRepr bs)
  else if base = ArgVal.str "16" ∨ base = ArgVal.str "hex" then GenResult.str [] (b16encode bs)
  else if base = ArgVal.str "32" then GenResult.str [] (rstripEq (b32encode bs))
  else if base = ArgVal.str "64" then GenResult.str [] (rstripEq (b64encode bs))
  else if base = ArgVal.str "85" then GenResult.str [] (b85encode bs)
  else if base = ArgVal.str "65536" then GenResult.str [] (b65536encode bs)
  else GenResult.bytes [Effect.reply "Unknown base"] bs

/-- Mode dispatch: `alphabet`, else `urange`, else byte mode. -/
def genRandomness (args : Args) (orc : Oracle) (length : Int) : GenResult :=
  match lookupArg args "alphabet" with
  | some av => alphabetMode av args orc length
  | none =>
    match lookupArg args "urange" with
    | some uv => urangeMode uv args orc length
    | none => byteMode args orc length

/-- `try: length = int(args["len"]) except (KeyError, ValueError): 64`. -/
def parsedLen (args : Args) : Int :=
  match lookupArg args "len" with
  | none => 64
  | some v => (pyInt v).getD 64

/-- The non-printable-characters scan:
`if [c for c in randomness if unicodedata.category(c) == "Cc"]`. -/
def ccWarn (s : PyStr) : List Effect :=
  if s.any isCc then [Effect.reply "Output contains non-printable characters"] else []

/-- Final delivery: topic state event when the `topic` flag is present,
otherwise a notice message. -/
def dispatchOut (args : Args) (s : PyStr) : Effect :=
  if hasArg args "topic" then Effect.setTopic s else Effect.notice s

def HELP : String :=
  "**Usage:** `!urandom [args...]`\n\nOutput format args:\n\n* `base=<base>` - The base to encode the random data in. Options: `raw`, `16`, `32`, `64`, `65536`.\n   The default is `base=64`.\n* `alphabet=<str>` - The set of characters to create a random string from.\n   Available options: `space=<chr>`, `shuffle`.\n* `urange=<range...>` - Unicode character range(s) to create a random string from.\n\nOther args:\n\n* `topic` - Set the result in the room topic instead of responding with a message.\n* `reply` - Reply to the command message instead of just sending a plain message.\n* `len=<int>` - The length of the string to generate.\n* `help[=<arg>]` - View this help page or the sub-help for a specific arg.\n"

def HELP_BASE : String :=
  "**Usage:** `!urandom base=<base> [len=<int>]`\n\nThis is the default format if `alphabet` or `urange` isn't specified. The default is base64.\nIn this mode, `len` specifies the number of bytes to generate, not the length of the output string.\n"

def HELP_ALPHABET : String :=
  "**Usage:** `!urandom alphabet=<str> [space=<char>] [shuffle] [len=<int>]`\n\nThis format generates a random string using the letters in the given alphabet.\n\nIf `shuffle` is specified, the given alphabet is shuffled instead. `len` is ignored when `shuffle`\nis used.\n\nAs `<str>` can't contain spaces, you can use `space=<char>` to replace all instances of `<char>`\nwith a space in the alphabet before generating the string.\n"

def HELP_URANGE : String :=
  "**Usage:** `!urandom urange=<range...> [len=<int>]`\n\nThis format generates a random string using the given unicode codepoint ranges.\n\n`<range...>` is a comma-separated list. Each `range` consists of one or two `part`s. If there are\ntwo `part`s, they're separated by a dash (`-`). Each `part` can be: a hex value prefixed by `0x`, a\nbinary value prefixed by `0b`, a python unicode escape (prefixed by `\\u`), a single character or an\nunprefixed base-10 value. Additionally, `part` may be a hex value prefixed by `U+`, but in that\ncase, the second `part` is not prefixed (e.g. `U+0061-007A`)\n"

def HELP_TOPIC : String :=
  "**Usage:** `!urandom topic [args...]`\n\nThis flag makes urandom set the topic to the output string instead of sending a new message with the\noutput string. It can be used in combination with any output format.\n"

def HELP_LEN : String :=
  "**Usage:** `!urandom len=<int> [args...]`\n\nThis flag sets the length of the randomized data. For the `base` output format, this specifies the\nlength of the random bytes. For other formats, this specifies the length of the output string.\n"

def HELP_HELP : String :=
  "**Usage:** `!urandom help[=<arg>]`\n\nView help for a specific argument. Currently, there are help pages for `base`, `alphabet`, `urange`,\n`topic`, `len` and `help`.\n\nHelp/command syntax:\n\n* `raw text`.\n* `<required argument>`.\n* `[optional block/argument]`. If an optional block contains a required argument, the rest of the\n   optional block is treated as raw text instead of an argument.\n* `argument...` - A list of items.\n"

def HELP_UNKNOWN : String :=
  "See `!urandom help=help` for help on how to use the help command."

/-- `helps.get(args["help"], HELP_UNKNOWN)`: the `helps` dict keyed on
`True` and the six topic names, with the unknown-topic fallback. -/
def helpFor : ArgVal → String
  | ArgVal.flagTrue => HELP
  | ArgVal.str "base" => HELP_BASE
  | ArgVal.str "alphabet" => HELP_ALPHABET
  | ArgVal.str "urange" => HELP_URANGE
  | ArgVal.str "topic" => HELP_TOPIC
  | ArgVal.str "len" => HELP_LEN
  | ArgVal.str "help" => HELP_HELP
  | ArgVal.str _ => HELP_UNKNOWN

/-- The handler body of `RandomBot.urandom`, as the list of messaging
effects it performs and how the turn ends.  (`evt.disable_reply`, a
presentation detail of the reply, is not modelled.) -/
def runUrandom (args : Args) (orc : Oracle) : List Effect × Outcome :=
  match lookupArg args "help" with
  | some hv => ([Effect.reply (helpFor hv)], Outcome.ok)
  | none =>
    let length := parsedLen args
    if length > 512 then ([Effect.reply "Too high length"], Outcome.ok)
    else if length < 0 then ([Effect.reply "Invalid length"], Outcome.ok)
    else
      match genRandomness args orc length with
      | GenResult.halt effs outc => (effs, outc)
      | GenResult.str effs s => (effs ++ ccWarn s ++ [dispatchOut args s], Outcome.ok)
      | GenResult.bytes effs _ => (effs, Outcome.error)

/-- The inverse decoding of each recognized textual base, used to state
the round-trip property. -/
def decodeForBase (base : String) (s : PyStr) : Option (List Nat) :=
  if base = "16" ∨ base = "hex" then b16decode s
  else if base = "32" then b32decode s
  else if base = "64" then b64decode s
  else if base = "85" then b85decode s
  else if base = "65536" then b65536decode s
  else none

/-! ## Helper lemmas -/

theorem lookupArg_nil (k : String) : lookupArg [] k = none := rfl

theorem lookup_skip (k : String) (m rest : Args) (h : ∀ p ∈ m, p.1 ≠ k) :
    List.lookup k (m ++ rest) = List.lookup k rest := by
  induction m with
  | nil => simp
  | cons q m ih =>
    have hq : q.1 ≠ k := h q (by simp)
    obtain ⟨a, b⟩ := q
    simp only [List.cons_append, List.lookup_cons]
    rw [beq_false_of_ne (Ne.symm hq)]
    exact ih (fun p hp => h p (by simp [hp]))

theorem lookupArg_append_single (l : Args) (k k2 : String) (v : ArgVal) :
    lookupArg (l ++ [(k, v)]) k2 = if k = k2 then some v else lookupArg l k2 := by
  unfold lookupArg
  rw [List.reverse_append]
  simp only [List.reverse_singleton, List.singleton_append, List.lookup_cons]
  by_cases hk : k = k2
  · subst hk
    simp
  · rw [beq_false_of_ne (Ne.symm hk)]
    simp [hk]

/-- `lookupArg` returns the value of the last occurrence of a key: any
entries after it with other keys do not shadow it, any entries before it
are ignored. -/
theorem lookupArg_last (l1 l2 : Args) (k : String) (v : ArgVal)
    (h : ∀ p ∈ l2, p.1 ≠ k) :
    lookupArg (l1 ++ (k, v) :: l2) k = some v := by
  unfold lookupArg
  rw [List.reverse_append, List.reverse_cons, List.append_assoc]
  rw [lookup_skip k l2.reverse _ (fun p hp => h p (List.mem_reverse.mp hp))]
  simp [List.lookup_cons]

/-- Byte mode with an unrecognized base replies and falls through with
the raw bytes. -/
theorem byteMode_unknown (args : Args) (orc : Oracle) (L : Int)
    (hbase : ∀ s ∈ (["raw", "16", "hex", "32", "64", "85", "65536"] : List String),
      (lookupArg args "base").getD (ArgVal.str "64") ≠ ArgVal.str s) :
    byteMode args orc L = GenResult.bytes [Effect.reply "Unknown base"]
      ((List.range (lenOr64 L)).map (fun i => orc.bytes i % 256)) := by
  unfold byteMode
  rw [if_neg (hbase "raw" (by simp))]
  rw [if_neg (fun hor => Or.elim hor (fun h => hbase "16" (by simp) h)
    (fun h => hbase "hex" (by simp) h))]
  rw [if_neg (hbase "32" (by simp)), if_neg (hbase "64" (by simp)),
      if_neg (hbase "85" (by simp)), if_neg (hbase "65536" (by simp))]

theorem b64digit_ne_61 (n : Nat) : b64digit n ≠ 61 := by
  unfold b64digit
  split_ifs <;> omega

theorem isCc_b64digit (n : Nat) : isCc (b64digit n) = false := by
  unfold b64digit isCc
  split_ifs <;> simp <;> omega

/-- `!urandom len` in byte mode: one byte is drawn and base64-encoded. -/
theorem bare_len_byte (orc : Oracle) : runUrandom (parse_args "len") orc
    = ([Effect.notice [b64digit (orc.bytes 0 % 256 / 4), b64digit (orc.bytes 0 % 256 % 4 * 16)]],
       Outcome.ok) := by
  unfold runUrandom
  rw [show lookupArg (parse_args "len") "help" = none from by decide]
  rw [if_neg (by decide), if_neg (by decide)]
  unfold genRandomness
  rw [show lookupArg (parse_args "len") "alphabet" = none from by decide,
      show lookupArg (parse_args "len") "urange" = none from by decide]
  unfold byteMode
  dsimp only
  rw [show (lookupArg (parse_args "len") "base").getD (ArgVal.str "64") = ArgVal.str "64"
        from by decide]
  rw [if_neg (by decide), if_neg (by decide), if_neg (by decide), if_pos rfl]
  rw [show parsedLen (parse_args "len") = 1 from by decide]
  rw [show lenOr64 1 = 1 from by decide, show List.range 1 = [0] from by decide]
  simp only [List.map_cons, List.map_nil]
  have h2 : ¬ (b64digit (orc.bytes 0 % 256 % 4 * 16) = 61) := b64digit_ne_61 _
  simp only [b64encode, rstripEq, List.reverse_cons, List.reverse_nil, List.nil_append,
    List.cons_append, List.dropWhile, decide_True, decide_eq_true_eq]
  rw [decide_eq_false h2]
  dsimp only
  simp only [List.reverse_cons, List.reverse_nil, List.nil_append, List.cons_append]
  simp [ccWarn, isCc_b64digit, dispatchOut, hasArg,
    show lookupArg (parse_args "len") "topic" = none from by decide]

/-- `!urandom alphabet=ab len`: one character is drawn from the
alphabet. -/
theorem bare_len_alphabet (orc : Oracle) : runUrandom (parse_args "alphabet=ab len") orc
    = ([Effect.notice [[97, 98].getD (orc.picks 0 % 2) 0]], Outcome.ok) := by
  unfold runUrandom
  rw [show lookupArg (parse_args "alphabet=ab len") "help" = none from by decide]
  rw [if_neg (by decide), if_neg (by decide)]
  unfold genRandomness
  rw [show lookupArg (parse_args "alphabet=ab len") "alphabet" = some (ArgVal.str "ab")
        from by decide]
  unfold alphabetMode
  dsimp only
  rw [show spaceSubst (parse_args "alphabet=ab len") (pyStr "ab") = some [97, 98] from by decide]
  dsimp only
  rw [if_neg (by decide), if_neg (by decide)]
  rw [show parsedLen (parse_args "alphabet=ab len") = 1 from by decide]
  rw [show lenOr64 1 = 1 from by decide]
  unfold choicesAlpha
  rw [show List.range 1 = [0] from by decide]
  simp only [List.map_cons, List.map_nil, List.length_cons, List.length_nil]
  have hlt : orc.picks 0 % 2 = 0 ∨ orc.picks 0 % 2 = 1 := by omega
  rcases hlt with h | h <;>
    simp [h, ccWarn, isCc, dispatchOut, hasArg,
      show lookupArg (parse_args "alphabet=ab len") "topic" = none from by decide]

/-- `!urandom urange=a-z len`: one codepoint is drawn from [97, 122]. -/
theorem bare_len_urange (orc : Oracle) : runUrandom (parse_args "urange=a-z len") orc
    = ([Effect.notice [(97 + (orc.vals 0 : Int) % 26).toNat]], Outcome.ok) := by
  unfold runUrandom
  rw [show lookupArg (parse_args "urange=a-z len") "help" = none from by decide]
  rw [if_neg (by decide), if_neg (by decide)]
  unfold genRandomness
  rw [show lookupArg (parse_args "urange=a-z len") "alphabet" = none from by decide]
  rw [show lookupArg (parse_args "urange=a-z len") "urange" = some (ArgVal.str "a-z")
        from by decide]
  unfold urangeMode
  dsimp only
  rw [show buildRanges (splitOnChar ',' "a-z".toList) = BuildRes.ok [(97, 123)] [26]
        from by decide]
  dsimp only
  rw [if_neg (by decide)]
  rw [show parsedLen (parse_args "urange=a-z len") = 1 from by decide]
  rw [show lenOr64 1 = 1 from by decide]
  have hgd : genDraw [((97 : Int), (123 : Int))] orc 0 1
      = some [97 + (orc.vals 0 : Int) % 26] := by
    simp [genDraw, Nat.mod_one]
  rw [hgd]
  dsimp only
  have hc : isCc ((97 + (orc.vals 0 : Int) % 26).toNat) = false := by
    have h1 : (0 : Int) ≤ (orc.vals 0 : Int) % 26 := Int.emod_nonneg _ (by norm_num)
    have h2 : (orc.vals 0 : Int) % 26 < 26 := Int.emod_lt_of_pos _ (by norm_num)
    simp only [isCc]
    simp
    omega
  simp [ccWarn, hc, dispatchOut, hasArg,
    show lookupArg (parse_args "urange=a-z len") "topic" = none from by decide]

theorem takeWhile_no_eq : ∀ (t : List Char), '=' ∉ t →
    t.takeWhile (fun c => c ≠ '=') = t
  | [], _ => rfl
  | c :: t, h => by
    have hc : c ≠ '=' := fun hc => h (by simp [hc])
    simp only [List.takeWhile_cons]
    rw [if_pos (by simp [hc])]
    rw [takeWhile_no_eq t (fun hm => h (by simp [hm]))]

theorem dropWhile_no_eq : ∀ (t : List Char), '=' ∉ t →
    t.dropWhile (fun c => c ≠ '=') = []
  | [], _ => rfl
  | c :: t, h => by
    have hc : c ≠ '=' := fun hc => h (by simp [hc])
    simp only [List.dropWhile_cons]
    rw [if_pos (by simp [hc])]
    exact dropWhile_no_eq t (fun hm => h (by simp [hm]))

theorem takeWhile_app_eq : ∀ (a b : List Char), '=' ∉ a →
    (a ++ '=' :: b).takeWhile (fun c => c ≠ '=') = a
  | [], b, _ => by simp [List.takeWhile_cons]
  | c :: a, b, h => by
    have hc : c ≠ '=' := fun hc => h (by simp [hc])
    simp only [List.cons_append, List.takeWhile_cons]
    rw [if_pos (by simp [hc])]
    rw [takeWhile_app_eq a b (fun hm => h (by simp [hm]))]

theorem dropWhile_app_eq : ∀ (a b : List Char), '=' ∉ a →
    (a ++ '=' :: b).dropWhile (fun c => c ≠ '=') = '=' :: b
  | [], b, _ => by simp [List.dropWhile_cons]
  | c :: a, b, h => by
    have hc : c ≠ '=' := fun hc => h (by simp [hc])
    simp only [List.cons_append, List.dropWhile_cons]
    rw [if_pos (by simp [hc])]
    exact dropWhile_app_eq a b (fun hm => h (by simp [hm]))

theorem getD_mem : ∀ (l : List (Int × Int)) (n : Nat) (d : Int × Int),
    n < l.length → l.getD n d ∈ l
  | a :: l, 0, d, _ => by simp
  | a :: l, n + 1, d, h => by
    simp only [List.getD_cons_succ]
    exact List.mem_cons_of_mem _ (getD_mem l n d (by simpa using Nat.lt_of_succ_lt_succ h))

theorem getD_eq_get : ∀ (l : List (Int × Int)) (n : Nat) (d : Int × Int) (h : n < l.length),
    l.getD n d = l.get ⟨n, h⟩
  | a :: l, 0, d, h => rfl
  | a :: l, n + 1, d, h => by
    simp only [List.getD_cons_succ, List.get_cons_succ]
    exact getD_eq_get l n d (Nat.lt_of_succ_lt_succ h)

/-- Every stored range is the half-open image `(start, end+1)` of the
parsed pair, with weight `end - start + 1`, after the zero-endpoint and
0x110000 bound checks. -/
theorem buildRanges_ok_spec :
    ∀ (items : List (List Char)) (rs : List (Int × Int)) (ws : List Int),
      buildRanges items = BuildRes.ok rs ws →
        rs.length = items.length ∧ ws.length = items.length ∧
        ∀ i, i < items.length → ∃ lo hi2,
          parse_urange (trimList (items.getD i [])) = Except.ok (lo, hi2) ∧
          lo ≠ 0 ∧ hi2 ≠ 0 ∧ 0 ≤ lo ∧ lo < 0x110000 ∧ 0 ≤ hi2 ∧ hi2 < 0x110000 ∧
          rs.getD i (0, 0) = (lo, hi2 + 1) ∧
          ws.getD i 0 = hi2 - lo + 1 := by
  intro items
  induction items with
  | nil =>
    intro rs ws h
    unfold buildRanges at h
    cases h
    exact ⟨rfl, rfl, fun i hi => absurd hi (by simp)⟩
  | cons u rest ih =>
    intro rs ws h
    unfold buildRanges at h
    cases hp : parse_urange (trimList u) with
    | error e =>
      rw [hp] at h
      cases e <;> simp at h
    | ok p =>
      obtain ⟨lo0, hi0⟩ := p
      rw [hp] at h
      dsimp only at h
      by_cases h1 : lo0 = 0 ∨ hi0 = 0
      · rw [if_pos h1] at h
        exact absurd h (by simp)
      rw [if_neg h1] at h
      by_cases h2 : ¬ (0 ≤ lo0 ∧ lo0 < 0x110000)
      · rw [if_pos h2] at h
        exact absurd h (by simp)
      rw [if_neg h2] at h
      by_cases h3 : ¬ (0 ≤ hi0 ∧ hi0 < 0x110000)
      · rw [if_pos h3] at h
        exact absurd h (by simp)
      rw [if_neg h3] at h
      push_neg at h2 h3
      cases hb : buildRanges rest with
      | ok rs2 ws2 =>
        rw [hb] at h
        dsimp only at h
        cases h
        obtain ⟨hl1, hl2, hspec⟩ := ih rs2 ws2 hb
        refine ⟨by simp [hl1], by simp [hl2], fun i hi => ?_⟩
        cases i with
        | zero =>
          exact ⟨lo0, hi0, by simpa using hp, fun h0 => h1 (Or.inl h0),
            fun h0 => h1 (Or.inr h0), h2.1, h2.2, h3.1, h3.2, rfl, rfl⟩
        | succ i =>
          exact hspec i (by simpa using Nat.lt_of_succ_lt_succ hi)
      | zeroEnd => rw [hb] at h; exact absurd h (by simp)
      | invalid => rw [hb] at h; exact absurd h (by simp)
      | fatal => rw [hb] at h; exact absurd h (by simp)

/-- Every codepoint a successful draw loop emits lies in one of the
stored half-open ranges, whatever the oracle chose. -/
theorem genDraw_mem :
    ∀ (k i : Nat) (rs : List (Int × Int)) (orc : Oracle) (out : List Int),
      genDraw rs orc i k = some out →
        ∀ c ∈ out, ∃ p ∈ rs, p.1 ≤ c ∧ c < p.2
  | 0, i, rs, orc, out, h => by
    unfold genDraw at h
    cases h
    intro c hc
    simp at hc
  | k + 1, i, rs, orc, out, h => by
    unfold genDraw at h
    dsimp only at h
    by_cases hr : (rs.getD (orc.picks i % rs.length) (0, 0)).2
        ≤ (rs.getD (orc.picks i % rs.length) (0, 0)).1
    · rw [if_pos hr] at h
      cases h
    · rw [if_neg hr] at h
      cases hrec : genDraw rs orc (i + 1) k with
      | none => rw [hrec] at h; cases h
      | some out2 =>
        rw [hrec] at h
        cases h
        intro c hc
        rcases List.mem_cons.mp hc with hc | hc
        · subst hc
          have hlen : 0 < rs.length := by
            rcases Nat.eq_zero_or_pos rs.length with h0 | h0
            · exfalso
              have hnil : rs = [] := List.length_eq_zero.mp h0
              subst hnil
              simp [List.getD] at hr
            · exact h0
          have hmem : rs.getD (orc.picks i % rs.length) (0, 0) ∈ rs :=
            getD_mem rs _ _ (Nat.mod_lt _ hlen)
          set r := rs.getD (orc.picks i % rs.length) (0, 0) with hrdef
          have hsub : (0 : Int) < r.2 - r.1 := by omega
          have hmodlt : orc.vals i % (r.2 - r.1).toNat < (r.2 - r.1).toNat :=
            Nat.mod_lt _ (by omega)
          have hlt : Int.ofNat (orc.vals i % (r.2 - r.1).toNat) < r.2 - r.1 := by
            calc Int.ofNat (orc.vals i % (r.2 - r.1).toNat)
                < Int.ofNat ((r.2 - r.1).toNat) := Int.ofNat_lt.mpr hmodlt
              _ = r.2 - r.1 := Int.toNat_of_nonneg (le_of_lt hsub)
          have hge : (0 : Int) ≤ Int.ofNat (orc.vals i % (r.2 - r.1).toNat) :=
            Int.ofNat_nonneg _
          exact ⟨r, hmem, by omega, by omega⟩
        · exact genDraw_mem k (i + 1) rs orc out2 hrec c hc

theorem getD_cons_eraseIdx_perm : ∀ (l : PyStr) (i : Nat), i < l.length →
    (l.getD i 0 :: l.eraseIdx i).Perm l
  | a :: l, 0, _ => by
    simp [List.eraseIdx]
  | a :: l, i + 1, h => by
    simp only [List.getD_cons_succ, List.eraseIdx_cons_succ]
    have ih := getD_cons_eraseIdx_perm l i (Nat.lt_of_succ_lt_succ h)
    exact (List.Perm.swap a (l.getD i 0) (l.eraseIdx i)).trans (ih.cons a)

theorem shuffleGo_perm : ∀ (fuel : Nat) (l : PyStr) (p : Nat → Nat), l.length ≤ fuel →
    (shuffleGo fuel l p).Perm l
  | 0, l, p, h => by
    have hl : l = [] := List.eq_nil_of_length_eq_zero (by omega)
    subst hl
    exact List.Perm.refl _
  | fuel + 1, [], p, h => List.Perm.refl _
  | fuel + 1, a :: rest, p, h => by
    unfold shuffleGo
    dsimp only
    have hi : p 0 % (a :: rest).length < (a :: rest).length := Nat.mod_lt _ (by simp)
    have hlen : ((a :: rest).eraseIdx (p 0 % (a :: rest).length)).length ≤ fuel := by
      rw [List.length_eraseIdx]
      simp only [hi, if_pos]
      simp at h ⊢
      omega
    exact ((shuffleGo_perm fuel _ _ hlen).cons _).trans
      (getD_cons_eraseIdx_perm (a :: rest) (p 0 % (a :: rest).length) hi)

/-- Whatever indices the oracle picks, the modelled shuffle is a
permutation of its input. -/
theorem shuffleModel_perm (l : PyStr) (p : Nat → Nat) : (shuffleModel l p).Perm l :=
  shuffleGo_perm l.length l p le_rfl

/-- The handler on an alphabet-mode shuffle request: the effects are the
non-printable scan and the delivery of the shuffled alphabet. -/
theorem run_shuffle_eq (args : Args) (orc : Oracle) (A : String) (B : PyStr)
    (hhelp : lookupArg args "help" = none)
    (hlo : 0 ≤ parsedLen args) (hhi : parsedLen args ≤ 512)
    (halpha : lookupArg args "alphabet" = some (ArgVal.str A))
    (hsub : spaceSubst args (pyStr A) = some B)
    (hshuf : (hasArg args "permutation" || hasArg args "shuffle") = true) :
    runUrandom args orc
      = (ccWarn (shuffleModel B orc.picks) ++ [dispatchOut args (shuffleModel B orc.picks)],
         Outcome.ok) := by
  unfold runUrandom
  rw [hhelp, if_neg (by omega), if_neg (by omega)]
  unfold genRandomness
  rw [halpha]
  unfold alphabetMode
  dsimp only
  rw [hsub]
  dsimp only
  rw [if_pos hshuf]
  dsimp only
  simp

/-! ### Round trips of the byte-mode encoders -/

theorem hexDigitUInv_left : ∀ n, n < 16 → hexDigitUInv (hexDigitU n) = some n := by decide

theorem b64digitInv_left : ∀ n, n < 64 → b64digitInv (b64digit n) = some n := by decide

theorem b32digitInv_left : ∀ n, n < 32 → b32digitInv (b32digit n) = some n := by decide

theorem b85digitInv_left : ∀ n, n < 85 → b85digitInv (b85digit n) = some n := by decide

theorem div_mul_add (d K s : Nat) (hd : 0 < d) (hs : s < d) : (d * K + s) / d = K := by
  rw [Nat.mul_add_div hd, Nat.div_eq_of_lt hs, Nat.add_zero]

theorem b16_roundtrip : ∀ (bs : List Nat), (∀ b ∈ bs, b < 256) →
    b16decode (b16encode bs) = some bs
  | [], _ => rfl
  | b :: rest, h => by
    have hb : b < 256 := h b (by simp)
    unfold b16encode b16decode
    rw [hexDigitUInv_left _ (by omega), hexDigitUInv_left _ (by omega)]
    rw [b16_roundtrip rest (fun x hx => h x (by simp [hx]))]
    dsimp only
    congr 2
    omega

theorem b65536_roundtrip : ∀ (bs : List Nat), (∀ b ∈ bs, b < 256) →
    b65536decode (b65536encode bs) = some bs
  | [], _ => rfl
  | [b1], h => by
    have hb : b1 < 256 := h b1 (by simp)
    unfold b65536encode b65536decode b65536padStart
    rw [if_pos (by omega)]
    have he : 0x1500 + b1 - 0x1500 = b1 := by omega
    rw [he]
  | b1 :: b2 :: rest, h => by
    have h1 : b1 < 256 := h b1 (by simp)
    have h2 : b2 < 256 := h b2 (by simp)
    unfold b65536encode b65536decode b65536blockStart
    rw [if_neg (by omega), if_pos (by omega)]
    rw [b65536_roundtrip rest (fun x hx => h x (by simp [hx]))]
    have hd : (0x3400 + b1 * 256 + b2 - 0x3400) / 256 = b1 := by omega
    have hm : (0x3400 + b1 * 256 + b2 - 0x3400) % 256 = b2 := by omega
    rw [hd, hm]
    rfl

theorem rstripEq_eq_nil_iff (l : List Nat) : rstripEq l = [] ↔ ∀ x ∈ l, x = 61 := by
  unfold rstripEq
  rw [List.reverse_eq_nil_iff, List.dropWhile_eq_nil_iff]
  constructor
  · intro hall x hx
    simpa using hall x (List.mem_reverse.mpr hx)
  · intro hall x hx
    simpa using hall x (List.mem_reverse.mp hx)

theorem rstripEq_append (a b : List Nat) :
    rstripEq (a ++ b) = if rstripEq b = [] then rstripEq a else a ++ rstripEq b := by
  unfold rstripEq
  rw [List.reverse_append, List.dropWhile_append]
  by_cases hb : (b.reverse.dropWhile (fun c => decide (c = 61))).isEmpty = true
  · rw [if_pos hb]
    have hb2 : (b.reverse.dropWhile (fun c => decide (c = 61))).reverse = [] := by
      rw [List.reverse_eq_nil_iff]
      simpa [List.isEmpty_iff] using hb
    rw [if_pos hb2]
  · rw [if_neg hb]
    have hb2 : ¬ (b.reverse.dropWhile (fun c => decide (c = 61))).reverse = [] := by
      rw [List.reverse_eq_nil_iff]
      simpa [List.isEmpty_iff] using hb
    rw [if_neg hb2, List.reverse_append, List.reverse_reverse]

theorem rstrip_pad2 (x y : Nat) (hy : ¬ y = 61) : rstripEq [x, y, 61, 61] = [x, y] := by
  unfold rstripEq
  simp [List.dropWhile, hy]

theorem rstrip_pad1 (x y z : Nat) (hz : ¬ z = 61) : rstripEq [x, y, z, 61] = [x, y, z] := by
  unfold rstripEq
  simp [List.dropWhile, hz]

theorem rstrip_full4 (w x y z : Nat) (hz : ¬ z = 61) : rstripEq [w, x, y, z] = [w, x, y, z] := by
  unfold rstripEq
  simp [List.dropWhile, hz]

theorem b64encode_cons_head : ∀ (b : Nat) (bs : List Nat),
    ∃ t, b64encode (b :: bs) = b64digit (b / 4) :: t
  | _, [] => ⟨_, rfl⟩
  | _, [_] => ⟨_, rfl⟩
  | _, _ :: _ :: _ => ⟨_, rfl⟩

theorem b64_roundtrip : ∀ (bs : List Nat), (∀ b ∈ bs, b < 256) →
    b64decode (rstripEq (b64encode bs)) = some bs
  | [], _ => rfl
  | [b1], h => by
    have h1 : b1 < 256 := h b1 (by simp)
    unfold b64encode
    rw [rstrip_pad2 _ _ (b64digit_ne_61 _)]
    unfold b64decode
    rw [b64digitInv_left _ (by omega), b64digitInv_left _ (by omega)]
    dsimp only
    congr 2
    omega
  | [b1, b2], h => by
    have h1 : b1 < 256 := h b1 (by simp)
    have h2 : b2 < 256 := h b2 (by simp)
    unfold b64encode
    rw [rstrip_pad1 _ _ _ (b64digit_ne_61 _)]
    unfold b64decode
    rw [b64digitInv_left _ (by omega), b64digitInv_left _ (by omega),
        b64digitInv_left _ (by omega)]
    dsimp only
    congr 2
    · omega
    · congr 1
      omega
  | b1 :: b2 :: b3 :: rest, h => by
    have h1 : b1 < 256 := h b1 (by simp)
    have h2 : b2 < 256 := h b2 (by simp)
    have h3 : b3 < 256 := h b3 (by simp)
    have hrest : ∀ x ∈ rest, x < 256 := fun x hx => h x (by simp [hx])
    unfold b64encode
    cases rest with
    | nil =>
      rw [show b64encode ([] : List Nat) = [] from rfl]
      rw [rstrip_full4 _ _ _ _ (b64digit_ne_61 _)]
      unfold b64decode
      rw [b64digitInv_left _ (by omega), b64digitInv_left _ (by omega),
          b64digitInv_left _ (by omega), b64digitInv_left _ (by omega)]
      rw [show b64decode [] = some [] from rfl]
      dsimp only
      congr 2
      · omega
      · congr 1
        · omega
        · congr 1
          omega
    | cons r1 rrest =>
      have hne : ¬ (rstripEq (b64encode (r1 :: rrest)) = []) := by
        rw [rstripEq_eq_nil_iff]
        obtain ⟨t, ht⟩ := b64encode_cons_head r1 rrest
        intro hall
        have hmem : b64digit (r1 / 4) ∈ b64encode (r1 :: rrest) := by
          rw [ht]
          exact List.mem_cons_self _ _
        exact b64digit_ne_61 _ (hall _ hmem)
      rw [show (b64digit (b1 / 4) :: b64digit (b1 % 4 * 16 + b2 / 16) ::
            b64digit (b2 % 16 * 4 + b3 / 64) :: b64digit (b3 % 64) :: b64encode (r1 :: rrest))
          = [b64digit (b1 / 4), b64digit (b1 % 4 * 16 + b2 / 16),
             b64digit (b2 % 16 * 4 + b3 / 64), b64digit (b3 % 64)] ++ b64encode (r1 :: rrest)
          from rfl]
      rw [rstripEq_append, if_neg hne]
      rw [List.cons_append, List.cons_append, List.cons_append, List.singleton_append]
      unfold b64decode
      rw [b64digitInv_left _ (by omega), b64digitInv_left _ (by omega),
          b64digitInv_left _ (by omega), b64digitInv_left _ (by omega)]
      rw [b64_roundtrip (r1 :: rrest) hrest]
      dsimp only
      congr 2
      · omega
      · congr 1
        · omega
        · congr 1
          omega

theorem b32digit_ne_61 : ∀ n, n < 32 → ¬ b32digit n = 61 := by decide

theorem rstrip32_pad6 (x1 x2 : Nat) (h : ¬ x2 = 61) :
    rstripEq [x1, x2, 61, 61, 61, 61, 61, 61] = [x1, x2] := by
  unfold rstripEq
  simp [List.dropWhile, h]

theorem rstrip32_pad4 (x1 x2 x3 x4 : Nat) (h : ¬ x4 = 61) :
    rstripEq [x1, x2, x3, x4, 61, 61, 61, 61] = [x1, x2, x3, x4] := by
  unfold rstripEq
  simp [List.dropWhile, h]

theorem rstrip32_pad3 (x1 x2 x3 x4 x5 : Nat) (h : ¬ x5 = 61) :
    rstripEq [x1, x2, x3, x4, x5, 61, 61, 61] = [x1, x2, x3, x4, x5] := by
  unfold rstripEq
  simp [List.dropWhile, h]

theorem rstrip32_pad1 (x1 x2 x3 x4 x5 x6 x7 : Nat) (h : ¬ x7 = 61) :
    rstripEq [x1, x2, x3, x4, x5, x6, x7, 61] = [x1, x2, x3, x4, x5, x6, x7] := by
  unfold rstripEq
  simp [List.dropWhile, h]

theorem rstrip32_full (x1 x2 x3 x4 x5 x6 x7 x8 : Nat) (h : ¬ x8 = 61) :
    rstripEq [x1, x2, x3, x4, x5, x6, x7, x8] = [x1, x2, x3, x4, x5, x6, x7, x8] := by
  unfold rstripEq
  simp [List.dropWhile, h]

theorem b32encode_cons_head : ∀ (b : Nat) (bs : List Nat),
    ∃ t, b32encode (b :: bs) = b32digit (b / 8) :: t
  | _, [] => ⟨_, rfl⟩
  | _, [_] => ⟨_, rfl⟩
  | _, [_, _] => ⟨_, rfl⟩
  | _, [_, _, _] => ⟨_, rfl⟩
  | _, _ :: _ :: _ :: _ :: _ => ⟨_, rfl⟩

theorem b32_roundtrip : ∀ (bs : List Nat), (∀ b ∈ bs, b < 256) →
    b32decode (rstripEq (b32encode bs)) = some bs
  | [], _ => rfl
  | [b1], h => by
    have h1 : b1 < 256 := h b1 (by simp)
    unfold b32encode
    rw [rstrip32_pad6 _ _ (b32digit_ne_61 _ (by omega))]
    unfold b32decode
    rw [b32digitInv_left _ (by omega), b32digitInv_left _ (by omega)]
    dsimp only
    congr 2
    omega
  | [b1, b2], h => by
    have h1 : b1 < 256 := h b1 (by simp)
    have h2 : b2 < 256 := h b2 (by simp)
    unfold b32encode
    rw [rstrip32_pad4 _ _ _ _ (b32digit_ne_61 _ (by omega))]
    unfold b32decode
    rw [b32digitInv_left _ (by omega), b32digitInv_left _ (by omega),
        b32digitInv_left _ (by omega), b32digitInv_left _ (by omega)]
    dsimp only
    congr 2
    · omega
    · congr 1
      omega
  | [b1, b2, b3], h => by
    have h1 : b1 < 256 := h b1 (by simp)
    have h2 : b2 < 256 := h b2 (by simp)
    have h3 : b3 < 256 := h b3 (by simp)
    unfold b32encode
    rw [rstrip32_pad3 _ _ _ _ _ (b32digit_ne_61 _ (by omega))]
    unfold b32decode
    rw [b32digitInv_left _ (by omega), b32digitInv_left _ (by omega),
        b32digitInv_left _ (by omega), b32digitInv_left _ (by omega),
        b32digitInv_left _ (by omega)]
    dsimp only
    congr 2
    · omega
    · congr 1
      · omega
      · congr 1
        omega
  | [b1, b2, b3, b4], h => by
    have h1 : b1 < 256 := h b1 (by simp)
    have h2 : b2 < 256 := h b2 (by simp)
    have h3 : b3 < 256 := h b3 (by simp)
    have h4 : b4 < 256 := h b4 (by simp)
    unfold b32encode
    rw [rstrip32_pad1 _ _ _ _ _ _ _ (b32digit_ne_61 _ (by omega))]
    unfold b32decode
    rw [b32digitInv_left _ (by omega), b32digitInv_left _ (by omega),
        b32digitInv_left _ (by omega), b32digitInv_left _ (by omega),
        b32digitInv_left _ (by omega), b32digitInv_left _ (by omega),
        b32digitInv_left _ (by omega)]
    dsimp only
    congr 2
    · omega
    · congr 1
      · omega
      · congr 1
        · omega
        · congr 1
          omega
  | b1 :: b2 :: b3 :: b4 :: b5 :: rest, h => by
    have h1 : b1 < 256 := h b1 (by simp)
    have h2 : b2 < 256 := h b2 (by simp)
    have h3 : b3 < 256 := h b3 (by simp)
    have h4 : b4 < 256 := h b4 (by simp)
    have h5 : b5 < 256 := h b5 (by simp)
    have hrest : ∀ x ∈ rest, x < 256 := fun x hx => h x (by simp [hx])
    unfold b32encode
    cases rest with
    | nil =>
      rw [show b32encode ([] : List Nat) = [] from rfl]
      rw [rstrip32_full _ _ _ _ _ _ _ _ (b32digit_ne_61 _ (by omega))]
      unfold b32decode
      rw [b32digitInv_left _ (by omega), b32digitInv_left _ (by omega),
          b32digitInv_left _ (by omega), b32digitInv_left _ (by omega),
          b32digitInv_left _ (by omega), b32digitInv_left _ (by omega),
          b32digitInv_left _ (by omega), b32digitInv_left _ (by omega)]
      rw [show b32decode [] = some [] from rfl]
      dsimp only
      congr 2
      · omega
      · congr 1
        · omega
        · congr 1
          · omega
          · congr 1
            · omega
            · congr 1
              omega
    | cons r1 rrest =>
      have hne : ¬ (rstripEq (b32encode (r1 :: rrest)) = []) := by
        rw [rstripEq_eq_nil_iff]
        obtain ⟨t, ht⟩ := b32encode_cons_head r1 rrest
        intro hall
        have hmem : b32digit (r1 / 8) ∈ b32encode (r1 :: rrest) := by
          rw [ht]
          exact List.mem_cons_self _ _
        have hr1 : r1 < 256 := hrest r1 (by simp)
        exact b32digit_ne_61 _ (by omega) (hall _ hmem)
      rw [show (b32digit (b1 / 8) :: b32digit (b1 % 8 * 4 + b2 / 64) :: b32digit (b2 / 2 % 32) ::
            b32digit (b2 % 2 * 16 + b3 / 16) :: b32digit (b3 % 16 * 2 + b4 / 128) ::
            b32digit (b4 / 4 % 32) :: b32digit (b4 % 4 * 8 + b5 / 32) :: b32digit (b5 % 32) ::
            b32encode (r1 :: rrest))
          = [b32digit (b1 / 8), b32digit (b1 % 8 * 4 + b2 / 64), b32digit (b2 / 2 % 32),
             b32digit (b2 % 2 * 16 + b3 / 16), b32digit (b3 % 16 * 2 + b4 / 128),
             b32digit (b4 / 4 % 32), b32digit (b4 % 4 * 8 + b5 / 32), b32digit (b5 % 32)]
            ++ b32encode (r1 :: rrest)
          from rfl]
      rw [rstripEq_append, if_neg hne]
      rw [List.cons_append, List.cons_append, List.cons_append, List.cons_append,
          List.cons_append, List.cons_append, List.cons_append, List.singleton_append]
      unfold b32decode
      rw [b32digitInv_left _ (by omega), b32digitInv_left _ (by omega),
          b32digitInv_left _ (by omega), b32digitInv_left _ (by omega),
          b32digitInv_left _ (by omega), b32digitInv_left _ (by omega),
          b32digitInv_left _ (by omega), b32digitInv_left _ (by omega)]
      rw [b32_roundtrip (r1 :: rrest) hrest]
      dsimp only
      congr 2
      · omega
      · congr 1
        · omega
        · congr 1
          · omega
          · congr 1
            · omega
            · congr 1
              omega

theorem b85_roundtrip : ∀ (bs : List Nat), (∀ b ∈ bs, b < 256) →
    b85decode (b85encode bs) = some bs
  | [], _ => rfl
  | [b1], h => by
    have h1 : b1 < 256 := h b1 (by simp)
    simp only [b85encode, b85decode]
    rw [b85digitInv_left _ (by omega), b85digitInv_left _ (by omega)]
    have hdd1 : b1 * 16777216 / 614125 / 85 = b1 * 16777216 / 52200625 := by
      rw [Nat.div_div_eq_div_mul]
    dsimp only
    obtain ⟨s, hs1, hs2⟩ : ∃ s, s ≤ 614124 ∧
        b1 * 16777216 / 52200625 * 52200625 + b1 * 16777216 / 614125 % 85 * 614125 + 614124
          = b1 * 16777216 + s :=
      ⟨614124 - b1 * 16777216 % 614125, by omega, by omega⟩
    rw [hs2]
    rw [if_pos (show b1 * 16777216 + s < 4294967296 by omega)]
    have hb1 : (b1 * 16777216 + s) / 16777216 = b1 := by
      rw [show b1 * 16777216 + s = 16777216 * b1 + s from by omega]
      exact div_mul_add _ _ _ (by norm_num) (by omega)
    rw [hb1]
  | [b1, b2], h => by
    have h1 : b1 < 256 := h b1 (by simp)
    have h2 : b2 < 256 := h b2 (by simp)
    simp only [b85encode, b85decode]
    rw [b85digitInv_left _ (by omega), b85digitInv_left _ (by omega),
        b85digitInv_left _ (by omega)]
    have hdd1 : (b1 * 16777216 + b2 * 65536) / 614125 / 85
        = (b1 * 16777216 + b2 * 65536) / 52200625 := by
      rw [Nat.div_div_eq_div_mul]
    have hdd2 : (b1 * 16777216 + b2 * 65536) / 7225 / 85
        = (b1 * 16777216 + b2 * 65536) / 614125 := by
      rw [Nat.div_div_eq_div_mul]
    dsimp only
    obtain ⟨s, hs1, hs2⟩ : ∃ s, s ≤ 7224 ∧
        (b1 * 16777216 + b2 * 65536) / 52200625 * 52200625
          + (b1 * 16777216 + b2 * 65536) / 614125 % 85 * 614125
          + (b1 * 16777216 + b2 * 65536) / 7225 % 85 * 7225 + 7224
          = (b1 * 16777216 + b2 * 65536) + s :=
      ⟨7224 - (b1 * 16777216 + b2 * 65536) % 7225, by omega, by omega⟩
    rw [hs2]
    rw [if_pos (show b1 * 16777216 + b2 * 65536 + s < 4294967296 by omega)]
    have hb1 : (b1 * 16777216 + b2 * 65536 + s) / 16777216 = b1 := by
      rw [show b1 * 16777216 + b2 * 65536 + s = 16777216 * b1 + (b2 * 65536 + s) from by omega]
      exact div_mul_add _ _ _ (by norm_num) (by omega)
    have hb2 : (b1 * 16777216 + b2 * 65536 + s) / 65536 % 256 = b2 := by
      rw [show b1 * 16777216 + b2 * 65536 + s = 65536 * (256 * b1 + b2) + s from by omega]
      rw [div_mul_add _ _ _ (by norm_num) (by omega)]
      omega
    rw [hb1, hb2]
  | [b1, b2, b3], h => by
    have h1 : b1 < 256 := h b1 (by simp)
    have h2 : b2 < 256 := h b2 (by simp)
    have h3 : b3 < 256 := h b3 (by simp)
    simp only [b85encode, b85decode]
    rw [b85digitInv_left _ (by omega), b85digitInv_left _ (by omega),
        b85digitInv_left _ (by omega), b85digitInv_left _ (by omega)]
    have hdd1 : (b1 * 16777216 + b2 * 65536 + b3 * 256) / 614125 / 85
        = (b1 * 16777216 + b2 * 65536 + b3 * 256) / 52200625 := by
      rw [Nat.div_div_eq_div_mul]
    have hdd2 : (b1 * 16777216 + b2 * 65536 + b3 * 256) / 7225 / 85
        = (b1 * 16777216 + b2 * 65536 + b3 * 256) / 614125 := by
      rw [Nat.div_div_eq_div_mul]
    have hdd3 : (b1 * 16777216 + b2 * 65536 + b3 * 256) / 85 / 85
        = (b1 * 16777216 + b2 * 65536 + b3 * 256) / 7225 := by
      rw [Nat.div_div_eq_div_mul]
    dsimp only
    obtain ⟨s, hs1, hs2⟩ : ∃ s, s ≤ 84 ∧
        (b1 * 16777216 + b2 * 65536 + b3 * 256) / 52200625 * 52200625
          + (b1 * 16777216 + b2 * 65536 + b3 * 256) / 614125 % 85 * 614125
          + (b1 * 16777216 + b2 * 65536 + b3 * 256) / 7225 % 85 * 7225
          + (b1 * 16777216 + b2 * 65536 + b3 * 256) / 85 % 85 * 85 + 84
          = (b1 * 16777216 + b2 * 65536 + b3 * 256) + s :=
      ⟨84 - (b1 * 16777216 + b2 * 65536 + b3 * 256) % 85, by omega, by omega⟩
    rw [hs2]
    rw [if_pos (show b1 * 16777216 + b2 * 65536 + b3 * 256 + s < 4294967296 by omega)]
    have hb1 : (b1 * 16777216 + b2 * 65536 + b3 * 256 + s) / 16777216 = b1 := by
      rw [show b1 * 16777216 + b2 * 65536 + b3 * 256 + s
          = 16777216 * b1 + (b2 * 65536 + b3 * 256 + s) from by omega]
      exact div_mul_add _ _ _ (by norm_num) (by omega)
    have hb2 : (b1 * 16777216 + b2 * 65536 + b3 * 256 + s) / 65536 % 256 = b2 := by
      rw [show b1 * 16777216 + b2 * 65536 + b3 * 256 + s
          = 65536 * (256 * b1 + b2) + (b3 * 256 + s) from by omega]
      rw [div_mul_add _ _ _ (by norm_num) (by omega)]
      omega
    have hb3 : (b1 * 16777216 + b2 * 65536 + b3 * 256 + s) / 256 % 256 = b3 := by
      rw [show b1 * 16777216 + b2 * 65536 + b3 * 256 + s
          = 256 * (65536 * b1 + 256 * b2 + b3) + s from by omega]
      rw [div_mul_add _ _ _ (by norm_num) (by omega)]
      omega
    rw [hb1, hb2, hb3]
  | b1 :: b2 :: b3 :: b4 :: rest, h => by
    have h1 : b1 < 256 := h b1 (by simp)
    have h2 : b2 < 256 := h b2 (by simp)
    have h3 : b3 < 256 := h b3 (by simp)
    have h4 : b4 < 256 := h b4 (by simp)
    have hrest : ∀ x ∈ rest, x < 256 := fun x hx => h x (by simp [hx])
    simp only [b85encode, b85decode]
    rw [b85digitInv_left _ (by omega), b85digitInv_left _ (by omega),
        b85digitInv_left _ (by omega), b85digitInv_left _ (by omega),
        b85digitInv_left _ (by omega)]
    rw [b85_roundtrip rest hrest]
    have hdd1 : (b1 * 16777216 + b2 * 65536 + b3 * 256 + b4) / 614125 / 85
        = (b1 * 16777216 + b2 * 65536 + b3 * 256 + b4) / 52200625 := by
      rw [Nat.div_div_eq_div_mul]
    have hdd2 : (b1 * 16777216 + b2 * 65536 + b3 * 256 + b4) / 7225 / 85
        = (b1 * 16777216 + b2 * 65536 + b3 * 256 + b4) / 614125 := by
      rw [Nat.div_div_eq_div_mul]
    have hdd3 : (b1 * 16777216 + b2 * 65536 + b3 * 256 + b4) / 85 / 85
        = (b1 * 16777216 + b2 * 65536 + b3 * 256 + b4) / 7225 := by
      rw [Nat.div_div_eq_div_mul]
    dsimp only
    have hfull : (b1 * 16777216 + b2 * 65536 + b3 * 256 + b4) / 52200625 * 52200625
        + (b1 * 16777216 + b2 * 65536 + b3 * 256 + b4) / 614125 % 85 * 614125
        + (b1 * 16777216 + b2 * 65536 + b3 * 256 + b4) / 7225 % 85 * 7225
        + (b1 * 16777216 + b2 * 65536 + b3 * 256 + b4) / 85 % 85 * 85
        + (b1 * 16777216 + b2 * 65536 + b3 * 256 + b4) % 85
        = b1 * 16777216 + b2 * 65536 + b3 * 256 + b4 := by omega
    rw [hfull]
    rw [if_pos (show b1 * 16777216 + b2 * 65536 + b3 * 256 + b4 < 4294967296 by omega)]
    have hb1 : (b1 * 16777216 + b2 * 65536 + b3 * 256 + b4) / 16777216 = b1 := by
      rw [show b1 * 16777216 + b2 * 65536 + b3 * 256 + b4
          = 16777216 * b1 + (b2 * 65536 + b3 * 256 + b4) from by omega]
      exact div_mul_add _ _ _ (by norm_num) (by omega)
    have hb2 : (b1 * 16777216 + b2 * 65536 + b3 * 256 + b4) / 65536 % 256 = b2 := by
      rw [show b1 * 16777216 + b2 * 65536 + b3 * 256 + b4
          = 65536 * (256 * b1 + b2) + (b3 * 256 + b4) from by omega]
      rw [div_mul_add _ _ _ (by norm_num) (by omega)]
      omega
    have hb3 : (b1 * 16777216 + b2 * 65536 + b3 * 256 + b4) / 256 % 256 = b3 := by
      rw [show b1 * 16777216 + b2 * 65536 + b3 * 256 + b4
          = 256 * (65536 * b1 + 256 * b2 + b3) + b4 from by omega]
      rw [div_mul_add _ _ _ (by norm_num) (by omega)]
      omega
    have hb4 : (b1 * 16777216 + b2 * 65536 + b3 * 256 + b4) % 256 = b4 := by omega
    rw [hb1, hb2, hb3, hb4]

/-! ## The claims -/

/-- C8: an alphabet-mode invocation with the `shuffle` or `permutation`
flag delivers a permutation of the (possibly space-substituted)
alphabet — same multiset, hence same length — for every possible random
draw, and overriding `len` with any valid value leaves the whole run
unchanged. -/
theorem claim_C8_shuffle (args : Args) (orc : Oracle) (A : String) (B : PyStr)
    (hhelp : lookupArg args "help" = none)
    (hlo : 0 ≤ parsedLen args) (hhi : parsedLen args ≤ 512)
    (halpha : lookupArg args "alphabet" = some (ArgVal.str A))
    (hsub : spaceSubst args (pyStr A) = some B)
    (hshuf : (hasArg args "permutation" || hasArg args "shuffle") = true) :
    runUrandom args orc
      = (ccWarn (shuffleModel B orc.picks) ++ [dispatchOut args (shuffleModel B orc.picks)],
         Outcome.ok) ∧
    (shuffleModel B orc.picks).Perm B ∧
    (shuffleModel B orc.picks).length = B.length ∧
    (∀ (v : ArgVal) (n : Int), pyInt v = some n → 0 ≤ n → n ≤ 512 →
      runUrandom (args ++ [("len", v)]) orc = runUrandom args orc) := by
  have hperm := shuffleModel_perm B orc.picks
  have h1 := run_shuffle_eq args orc A B hhelp hlo hhi halpha hsub hshuf
  refine ⟨h1, hperm, hperm.length_eq, fun v n hp hn0 hn512 => ?_⟩
  have hhelp2 : lookupArg (args ++ [("len", v)]) "help" = none := by
    rw [lookupArg_append_single, if_neg (by decide)]
    exact hhelp
  have halpha2 : lookupArg (args ++ [("len", v)]) "alphabet" = some (ArgVal.str A) := by
    rw [lookupArg_append_single, if_neg (by decide)]
    exact halpha
  have hlen2 : parsedLen (args ++ [("len", v)]) = n := by
    unfold parsedLen
    rw [lookupArg_append_single, if_pos rfl]
    dsimp only
    rw [hp]
    rfl
  have hsub2 : spaceSubst (args ++ [("len", v)]) (pyStr A) = some B := by
    unfold spaceSubst
    rw [lookupArg_append_single, if_neg (by decide)]
    exact hsub
  have hperm2 : hasArg (args ++ [("len", v)]) "permutation" = hasArg args "permutation" := by
    unfold hasArg
    rw [lookupArg_append_single, if_neg (by decide)]
  have hshuf2 : hasArg (args ++ [("len", v)]) "shuffle" = hasArg args "shuffle" := by
    unfold hasArg
    rw [lookupArg_append_single, if_neg (by decide)]
  have htop : hasArg (args ++ [("len", v)]) "topic" = hasArg args "topic" := by
    unfold hasArg
    rw [lookupArg_append_single, if_neg (by decide)]
  have htopic2 : dispatchOut (args ++ [("len", v)]) (shuffleModel B orc.picks)
      = dispatchOut args (shuffleModel B orc.picks) := by
    unfold dispatchOut
    rw [htop]
  have h2 := run_shuffle_eq (args ++ [("len", v)]) orc A B hhelp2 (by omega) (by omega)
    halpha2 hsub2 (by rw [hperm2, hshuf2]; exact hshuf)
  rw [h2, h1, htopic2]

theorem claim_C8_shuffle_witness :
    runUrandom (parse_args "alphabet=abc shuffle") constOracle
      = (ccWarn (shuffleModel [97, 98, 99] constOracle.picks)
          ++ [dispatchOut (parse_args "alphabet=abc shuffle")
                (shuffleModel [97, 98, 99] constOracle.picks)], Outcome.ok) ∧
    (shuffleModel [97, 98, 99] constOracle.picks).Perm [97, 98, 99] ∧
    (shuffleModel [97, 98, 99] constOracle.picks).length = ([97, 98, 99] : PyStr).length ∧
    (∀ (v : ArgVal) (n : Int), pyInt v = some n → 0 ≤ n → n ≤ 512 →
      runUrandom (parse_args "alphabet=abc shuffle" ++ [("len", v)]) constOracle
        = runUrandom (parse_args "alphabet=abc shuffle") constOracle) :=
  claim_C8_shuffle (parse_args "alphabet=abc shuffle") constOracle "abc" [97, 98, 99]
    (by decide) (by decide) (by decide) (by decide) (by decide) (by decide)

/-- C6: validated ranges are stored in half-open form `(start, end+1)`
with weight `end - start + 1`; every codepoint a successful draw loop
emits lies in a stored half-open range, hence inside one of the
user-specified inclusive ranges, for every possible sequence of random
draws; and the unicode-range mode emits exactly the drawn codepoints. -/
theorem claim_C6_urange_membership :
    (∀ (items : List (List Char)) (rs : List (Int × Int)) (ws : List Int),
      buildRanges items = BuildRes.ok rs ws →
        rs.length = items.length ∧ ws.length = items.length ∧
        ∀ i, i < items.length → ∃ lo hi2,
          parse_urange (trimList (items.getD i [])) = Except.ok (lo, hi2) ∧
          lo ≠ 0 ∧ hi2 ≠ 0 ∧ 0 ≤ lo ∧ lo < 0x110000 ∧ 0 ≤ hi2 ∧ hi2 < 0x110000 ∧
          rs.getD i (0, 0) = (lo, hi2 + 1) ∧
          ws.getD i 0 = hi2 - lo + 1) ∧
    (∀ (rs : List (Int × Int)) (orc : Oracle) (i k : Nat) (out : List Int),
      genDraw rs orc i k = some out → ∀ c ∈ out, ∃ p ∈ rs, p.1 ≤ c ∧ c < p.2) ∧
    (∀ (items : List (List Char)) (rs : List (Int × Int)) (ws : List Int) (orc : Oracle)
        (i k : Nat) (out : List Int),
      buildRanges items = BuildRes.ok rs ws → genDraw rs orc i k = some out →
        ∀ c ∈ out, ∃ j, j < items.length ∧ ∃ lo hi2,
          parse_urange (trimList (items.getD j [])) = Except.ok (lo, hi2) ∧
          lo ≤ c ∧ c ≤ hi2) ∧
    (∀ (u : String) (args : Args) (orc : Oracle) (L : Int) (rs : List (Int × Int))
        (ws : List Int) (out : List Int),
      buildRanges (splitOnChar ',' u.toList) = BuildRes.ok rs ws → ¬ (ws.sum ≤ 0) →
      genDraw rs orc 0 (lenOr64 L) = some out →
        urangeMode (ArgVal.str u) args orc L = GenResult.str [] (out.map Int.toNat)) := by
  refine ⟨buildRanges_ok_spec, fun rs orc i k out h => genDraw_mem k i rs orc out h,
    fun items rs ws orc i k out hb hg c hc => ?_, fun u args orc L rs ws out hb hw hg => ?_⟩
  · obtain ⟨p, hp, hlo, hhi⟩ := genDraw_mem k i rs orc out hg c hc
    obtain ⟨⟨j, hj⟩, hget⟩ := List.mem_iff_get.mp hp
    obtain ⟨hl1, _, hspec⟩ := buildRanges_ok_spec items rs ws hb
    have hj2 : j < items.length := by omega
    obtain ⟨lo, hi2, hpar, _, _, _, _, _, _, hrs, _⟩ := hspec j hj2
    rw [getD_eq_get rs j (0, 0) hj, hget] at hrs
    refine ⟨j, hj2, lo, hi2, hpar, ?_, ?_⟩
    · rw [hrs] at hlo
      exact hlo
    · rw [hrs] at hhi
      omega
  · unfold urangeMode
    dsimp only
    rw [hb]
    dsimp only
    rw [if_neg hw, hg]

theorem claim_C6_urange_membership_witness :
    ∀ c ∈ [(97 : Int), 97], ∃ j, j < (splitOnChar ',' "a-c,z".toList).length ∧ ∃ lo hi2,
      parse_urange (trimList ((splitOnChar ',' "a-c,z".toList).getD j []))
        = Except.ok (lo, hi2) ∧ lo ≤ c ∧ c ≤ hi2 :=
  claim_C6_urange_membership.2.2.1 (splitOnChar ',' "a-c,z".toList) [(97, 100), (122, 123)]
    [3, 1] constOracle 0 2 [97, 97] (by decide) (by decide)

/-- C7: the argument parser splits on single spaces, discards empty
tokens, and splits each token on the first `=`: a token `name=value`
(no `=` in `name`) maps to the lower-cased name with the value's
original case, a token without `=` maps to (lower-cased name, true),
and lookup returns the value of the last occurrence of a name. -/
theorem claim_C7_parse_args :
    (∀ s : String, parse_args s
      = ((splitOnChar ' ' s.toList).filter (fun t => t ≠ [])).map tokenPair) ∧
    (∀ (a b : List Char), '=' ∉ a →
      tokenPair (a ++ '=' :: b) = (String.mk (a.map lowerChar), ArgVal.str (String.mk b))) ∧
    (∀ t : List Char, '=' ∉ t →
      tokenPair t = (String.mk (t.map lowerChar), ArgVal.flagTrue)) ∧
    (∀ (l1 l2 : Args) (k : String) (v : ArgVal), (∀ p ∈ l2, p.1 ≠ k) →
      lookupArg (l1 ++ (k, v) :: l2) k = some v) := by
  refine ⟨fun s => rfl, fun a b h => ?_, fun t h => ?_, lookupArg_last⟩
  · unfold tokenPair splitFirstEq
    rw [List.span_eq_take_drop]
    rw [takeWhile_app_eq a b h, dropWhile_app_eq a b h]
  · unfold tokenPair splitFirstEq
    rw [List.span_eq_take_drop]
    rw [takeWhile_no_eq t h, dropWhile_no_eq t h]

theorem claim_C7_parse_args_witness :
    tokenPair ("Len".toList ++ '=' :: "5X".toList) = ("len", ArgVal.str "5X") ∧
    tokenPair "Topic".toList = ("topic", ArgVal.flagTrue) ∧
    lookupArg ([("a", ArgVal.str "1")] ++ ("a", ArgVal.str "2") :: [("b", ArgVal.flagTrue)]) "a"
      = some (ArgVal.str "2") := by
  refine ⟨?_, ?_, ?_⟩
  · rw [claim_C7_parse_args.2.1 "Len".toList "5X".toList (by decide)]
    decide
  · rw [claim_C7_parse_args.2.2.1 "Topic".toList (by decide)]
    decide
  · exact claim_C7_parse_args.2.2.2 [("a", ArgVal.str "1")] [("b", ArgVal.flagTrue)] "a"
      (ArgVal.str "2") (by decide)

/-- C5: `0x61-0x7A`, `U+0061-007A` and `a-z` all parse to the range
(97, 122), and the part-parser resolves its input in the fixed order
`0x` hex, `0b` binary, `\u` escape, single character codepoint, base-10
integer. -/
theorem claim_C5_urange_grammar :
    parse_urange "0x61-0x7A".toList = Except.ok (97, 122) ∧
    parse_urange "U+0061-007A".toList = Except.ok (97, 122) ∧
    parse_urange "a-z".toList = Except.ok (97, 122) ∧
    (∀ v : List Char,
      _parse_urange_part v =
        if List.isPrefixOf ['0', 'x'] v then intOrValueError (pyIntBase 16 v)
        else if List.isPrefixOf ['0', 'b'] v then intOrValueError (pyIntBase 2 v)
        else if List.isPrefixOf ['\\', 'u'] v then unicodeEscapeOrd v
        else if v.length = 1 then Except.ok (Int.ofNat ((v.headD ' ').toNat))
        else intOrValueError (pyIntBase 10 v)) := by
  refine ⟨by decide, by decide, by decide, fun v => ?_⟩
  unfold _parse_urange_part
  match v with
  | [] => rfl
  | [c] => rfl
  | c1 :: c2 :: rest => rfl

/-- C10: when `len` is given as a bare flag, the parser stores boolean
`True`, whose `int()` conversion is 1, and generation proceeds with
length 1 in every mode (byte mode draws one byte, alphabet and
unicode-range modes emit one character), with no error reply and no
default-64 fallback. -/
theorem claim_C10_bare_len :
    lookupArg (parse_args "len") "len" = some ArgVal.flagTrue ∧
    pyInt ArgVal.flagTrue = some 1 ∧
    (∀ orc : Oracle, runUrandom (parse_args "len") orc
      = ([Effect.notice [b64digit (orc.bytes 0 % 256 / 4), b64digit (orc.bytes 0 % 256 % 4 * 16)]],
         Outcome.ok)) ∧
    (∀ orc : Oracle, runUrandom (parse_args "alphabet=ab len") orc
      = ([Effect.notice [[97, 98].getD (orc.picks 0 % 2) 0]], Outcome.ok)) ∧
    (∀ orc : Oracle, runUrandom (parse_args "urange=a-z len") orc
      = ([Effect.notice [(97 + (orc.vals 0 : Int) % 26).toNat]], Outcome.ok)) :=
  ⟨by decide, by decide, bare_len_byte, bare_len_alphabet, bare_len_urange⟩

/-- C4: for every invocation without a `help` flag, a parsed length
above 512 yields the "Too high length" reply and a negative parsed
length yields the "Invalid length" reply; the checks run before mode
dispatch (the arguments here are arbitrary, so any mode flags may be
present) and nothing else is sent. -/
theorem claim_C4_length_checks (args : Args) (orc : Oracle)
    (hhelp : lookupArg args "help" = none) :
    (parsedLen args > 512 →
      runUrandom args orc = ([Effect.reply "Too high length"], Outcome.ok)) ∧
    (parsedLen args < 0 →
      runUrandom args orc = ([Effect.reply "Invalid length"], Outcome.ok)) := by
  unfold runUrandom
  rw [hhelp]
  constructor
  · intro h
    simp only [if_pos h]
  · intro h
    rw [if_neg (by omega), if_pos h]

theorem claim_C4_length_checks_witness :
    runUrandom (parse_args "len=513") constOracle
      = ([Effect.reply "Too high length"], Outcome.ok) ∧
    runUrandom (parse_args "len=-1") constOracle
      = ([Effect.reply "Invalid length"], Outcome.ok) := by
  constructor
  · exact (claim_C4_length_checks (parse_args "len=513") constOracle (by decide)).1 (by decide)
  · exact (claim_C4_length_checks (parse_args "len=-1") constOracle (by decide)).2 (by decide)

/-- C1: a byte-mode invocation (no `help`, no `alphabet`, no `urange`,
length checks passing) whose `base` value is none of
raw/16/hex/32/64/85/65536 gets exactly the "Unknown base" reply and the
turn ends there (with an uncaught exception from the later
category-scan on the bytes object): no output message is sent and the
room topic is not set. -/
theorem claim_C1_unknown_base (args : Args) (orc : Oracle)
    (hhelp : lookupArg args "help" = none)
    (hlo : 0 ≤ parsedLen args) (hhi : parsedLen args ≤ 512)
    (halpha : lookupArg args "alphabet" = none)
    (hurange : lookupArg args "urange" = none)
    (hbase : ∀ s ∈ (["raw", "16", "hex", "32", "64", "85", "65536"] : List String),
      (lookupArg args "base").getD (ArgVal.str "64") ≠ ArgVal.str s) :
    runUrandom args orc = ([Effect.reply "Unknown base"], Outcome.error) ∧
    ∀ s, Effect.notice s ∉ (runUrandom args orc).1 ∧
         Effect.setTopic s ∉ (runUrandom args orc).1 := by
  have hmain : runUrandom args orc = ([Effect.reply "Unknown base"], Outcome.error) := by
    unfold runUrandom
    rw [hhelp]
    rw [if_neg (by omega), if_neg (by omega)]
    unfold genRandomness
    rw [halpha, hurange]
    rw [byteMode_unknown args orc _ hbase]
  refine ⟨hmain, fun s => ⟨?_, ?_⟩⟩ <;> rw [hmain] <;> simp

/-- C3 counterexample: the request `urange=0-5` of the claim's example
does not trigger the zero-endpoint diagnostic.  The part `"0"` is a
single character, so `_parse_urange_part` returns `ord("0") = 48`: the
range parses as (48, 53), is valid, and output is generated. -/
theorem claim_C3_counterexample :
    runUrandom (parse_args "urange=0-5 len=1") constOracle
      = ([Effect.notice [48]], Outcome.ok) ∧
    Effect.reply javaNPE ∉ (runUrandom (parse_args "urange=0-5 len=1") constOracle).1 ∧
    parse_urange (trimList "0-5".toList) = Except.ok (48, 53) := by
  refine ⟨by decide, by decide, by decide⟩

/-- C3 (amended): a urange request one of whose expressions parses to a
zero endpoint (e.g. `urange=0x0-5`; a literal `0` part instead parses as
the character `'0'`) gets exactly the dedicated zero-endpoint
diagnostic, which differs from the generic "Invalid unicode range"
reply, and no output message or topic is produced.  The final conjunct
states the zero check at the validation loop: any single expression that
parses with a zero endpoint yields the dedicated diagnostic. -/
theorem claim_C3_zero_endpoint (args : Args) (orc : Oracle) (u : String)
    (hhelp : lookupArg args "help" = none)
    (hlo : 0 ≤ parsedLen args) (hhi : parsedLen args ≤ 512)
    (halpha : lookupArg args "alphabet" = none)
    (hurange : lookupArg args "urange" = some (ArgVal.str u))
    (hzero : buildRanges (splitOnChar ',' u.toList) = BuildRes.zeroEnd) :
    runUrandom args orc = ([Effect.reply javaNPE], Outcome.ok) ∧
    javaNPE ≠ "Invalid unicode range" ∧
    (∀ s, Effect.notice s ∉ (runUrandom args orc).1 ∧
          Effect.setTopic s ∉ (runUrandom args orc).1) ∧
    (∀ v lo hi, parse_urange (trimList v) = Except.ok (lo, hi) → (lo = 0 ∨ hi = 0) →
      buildRanges [v] = BuildRes.zeroEnd) := by
  have hmain : runUrandom args orc = ([Effect.reply javaNPE], Outcome.ok) := by
    unfold runUrandom
    rw [hhelp, if_neg (by omega), if_neg (by omega)]
    unfold genRandomness
    rw [halpha, hurange]
    unfold urangeMode
    dsimp only
    rw [hzero]
  refine ⟨hmain, by decide, fun s => ⟨?_, ?_⟩, fun v lo hi hp hor => ?_⟩
  · rw [hmain]; simp
  · rw [hmain]; simp
  · unfold buildRanges
    rw [hp]
    dsimp only
    rw [if_pos hor]

theorem claim_C3_zero_endpoint_witness :
    runUrandom (parse_args "urange=0x0-5") constOracle = ([Effect.reply javaNPE], Outcome.ok) ∧
    javaNPE ≠ "Invalid unicode range" ∧
    (∀ s, Effect.notice s ∉ (runUrandom (parse_args "urange=0x0-5") constOracle).1 ∧
          Effect.setTopic s ∉ (runUrandom (parse_args "urange=0x0-5") constOracle).1) ∧
    (∀ v lo hi, parse_urange (trimList v) = Except.ok (lo, hi) → (lo = 0 ∨ hi = 0) →
      buildRanges [v] = BuildRes.zeroEnd) :=
  claim_C3_zero_endpoint (parse_args "urange=0x0-5") constOracle "0x0-5" (by decide) (by decide)
    (by decide) (by decide) (by decide) (by decide)

/-- C9: whenever the generation phase produces an output string
containing a character of Unicode category Cc, the handler sends the
"non-printable characters" warning reply in addition to — not instead
of — delivering the output, as a notice message or as the room topic
when the `topic` flag is set. -/
theorem claim_C9_nonprintable (args : Args) (orc : Oracle) (effs : List Effect) (s : PyStr)
    (hhelp : lookupArg args "help" = none)
    (hlo : 0 ≤ parsedLen args) (hhi : parsedLen args ≤ 512)
    (hgen : genRandomness args orc (parsedLen args) = GenResult.str effs s)
    (hcc : s.any isCc = true) :
    runUrandom args orc
      = (effs ++ [Effect.reply "Output contains non-printable characters", dispatchOut args s],
         Outcome.ok) ∧
    Effect.reply "Output contains non-printable characters" ∈ (runUrandom args orc).1 ∧
    dispatchOut args s ∈ (runUrandom args orc).1 ∧
    (hasArg args "topic" = true → dispatchOut args s = Effect.setTopic s) ∧
    (hasArg args "topic" = false → dispatchOut args s = Effect.notice s) := by
  have hmain : runUrandom args orc
      = (effs ++ [Effect.reply "Output contains non-printable characters", dispatchOut args s],
         Outcome.ok) := by
    unfold runUrandom
    rw [hhelp, if_neg (by omega), if_neg (by omega), hgen]
    dsimp only
    unfold ccWarn
    rw [if_pos hcc]
    simp
  refine ⟨hmain, ?_, ?_, fun h => ?_, fun h => ?_⟩
  · rw [hmain]; simp
  · rw [hmain]; simp
  · unfold dispatchOut; rw [if_pos h]
  · unfold dispatchOut; rw [if_neg (by simp [h])]

theorem claim_C9_nonprintable_witness :
    runUrandom (parse_args "urange=0x1 len=1") constOracle
      = ([] ++ [Effect.reply "Output contains non-printable characters",
          dispatchOut (parse_args "urange=0x1 len=1") [1]], Outcome.ok) ∧
    Effect.reply "Output contains non-printable characters"
      ∈ (runUrandom (parse_args "urange=0x1 len=1") constOracle).1 ∧
    dispatchOut (parse_args "urange=0x1 len=1") [1]
      ∈ (runUrandom (parse_args "urange=0x1 len=1") constOracle).1 ∧
    (hasArg (parse_args "urange=0x1 len=1") "topic" = true →
      dispatchOut (parse_args "urange=0x1 len=1") [1] = Effect.setTopic [1]) ∧
    (hasArg (parse_args "urange=0x1 len=1") "topic" = false →
      dispatchOut (parse_args "urange=0x1 len=1") [1] = Effect.notice [1]) :=
  claim_C9_nonprintable (parse_args "urange=0x1 len=1") constOracle [] [1] (by decide)
    (by decide) (by decide) (by decide) (by decide)

theorem claim_C1_unknown_base_witness :
    runUrandom (parse_args "base=99") constOracle
      = ([Effect.reply "Unknown base"], Outcome.error) ∧
    ∀ s, Effect.notice s ∉ (runUrandom (parse_args "base=99") constOracle).1 ∧
         Effect.setTopic s ∉ (runUrandom (parse_args "base=99") constOracle).1 :=
  claim_C1_unknown_base (parse_args "base=99") constOracle (by decide) (by decide) (by decide)
    (by decide) (by decide) (by decide)

/-- Byte mode with a recognized base encodes the drawn bytes, and the
base's inverse decoding recovers them. -/
theorem byteMode_recognized (args : Args) (orc : Oracle) (L : Int) (b : String)
    (hbase : lookupArg args "base" = some (ArgVal.str b))
    (hrec : b = "16" ∨ b = "hex" ∨ b = "32" ∨ b = "64" ∨ b = "85" ∨ b = "65536") :
    ∃ s, byteMode args orc L = GenResult.str [] s ∧
      decodeForBase b s = some ((List.range (lenOr64 L)).map (fun i => orc.bytes i % 256)) := by
  have hbs : ∀ x ∈ (List.range (lenOr64 L)).map (fun i => orc.bytes i % 256), x < 256 := by
    intro x hx
    obtain ⟨i, _, hi⟩ := List.mem_map.mp hx
    omega
  unfold byteMode
  rw [hbase]
  dsimp only [Option.getD]
  rcases hrec with h | h | h | h | h | h <;> subst h
  · rw [if_neg (by decide), if_pos (Or.inl rfl)]
    exact ⟨_, rfl, by
      unfold decodeForBase
      rw [if_pos (Or.inl rfl)]
      exact b16_roundtrip _ hbs⟩
  · rw [if_neg (by decide), if_pos (Or.inr rfl)]
    exact ⟨_, rfl, by
      unfold decodeForBase
      rw [if_pos (Or.inr rfl)]
      exact b16_roundtrip _ hbs⟩
  · rw [if_neg (by decide), if_neg (by rintro (h | h) <;> simp at h), if_pos rfl]
    exact ⟨_, rfl, by
      unfold decodeForBase
      rw [if_neg (by rintro (h | h) <;> simp at h), if_pos rfl]
      exact b32_roundtrip _ hbs⟩
  · rw [if_neg (by decide), if_neg (by rintro (h | h) <;> simp at h), if_neg (by decide),
        if_pos rfl]
    exact ⟨_, rfl, by
      unfold decodeForBase
      rw [if_neg (by rintro (h | h) <;> simp at h), if_neg (by decide), if_pos rfl]
      exact b64_roundtrip _ hbs⟩
  · rw [if_neg (by decide), if_neg (by rintro (h | h) <;> simp at h), if_neg (by decide),
        if_neg (by decide), if_pos rfl]
    exact ⟨_, rfl, by
      unfold decodeForBase
      rw [if_neg (by rintro (h | h) <;> simp at h), if_neg (by decide), if_neg (by decide),
          if_pos rfl]
      exact b85_roundtrip _ hbs⟩
  · rw [if_neg (by decide), if_neg (by rintro (h | h) <;> simp at h), if_neg (by decide),
        if_neg (by decide), if_neg (by decide), if_pos rfl]
    exact ⟨_, rfl, by
      unfold decodeForBase
      rw [if_neg (by rintro (h | h) <;> simp at h), if_neg (by decide), if_neg (by decide),
          if_neg (by decide), if_pos rfl]
      exact b65536_roundtrip _ hbs⟩

/-- C2 (amended): for every parsed length L in [0, 512] and every
recognized base (16/hex, 32, 64, 85, 65536), the byte-mode output
decodes under that base's inverse decoding to exactly the drawn bytes;
their count is L except for L = 0, where the `length or 64` fallback
draws the default 64 bytes.  (The original claim, which asserts exactly
`len` bytes also for len = 0, fails there: see the counterexample.) -/
theorem claim_C2_roundtrip (args : Args) (orc : Oracle) (b : String) (L : Int)
    (hhelp : lookupArg args "help" = none)
    (halpha : lookupArg args "alphabet" = none)
    (hurange : lookupArg args "urange" = none)
    (hlen : parsedLen args = L) (h0 : 0 ≤ L) (h512 : L ≤ 512)
    (hbase : lookupArg args "base" = some (ArgVal.str b))
    (hrec : b = "16" ∨ b = "hex" ∨ b = "32" ∨ b = "64" ∨ b = "85" ∨ b = "65536") :
    ∃ s : PyStr,
      runUrandom args orc = (ccWarn s ++ [dispatchOut args s], Outcome.ok) ∧
      decodeForBase b s = some ((List.range (lenOr64 L)).map (fun i => orc.bytes i % 256)) ∧
      (((List.range (lenOr64 L)).map (fun i => orc.bytes i % 256)).length : Int)
        = if L = 0 then 64 else L := by
  obtain ⟨s, hbm, hdec⟩ := byteMode_recognized args orc L b hbase hrec
  refine ⟨s, ?_, hdec, ?_⟩
  · unfold runUrandom
    rw [hhelp, if_neg (by omega), if_neg (by omega)]
    unfold genRandomness
    rw [halpha, hurange, hlen, hbm]
    dsimp only
    simp
  · simp only [List.length_map, List.length_range]
    unfold lenOr64
    by_cases hL : L = 0
    · rw [if_pos hL, if_pos hL]
      rfl
    · rw [if_neg hL, if_neg hL]
      omega


/-- C2 counterexample: at `len=0` the byte-mode output decodes to 64
bytes, not 0 bytes, because `length or DEFAULT_LENGTH` treats 0 as
falsy. -/
theorem claim_C2_counterexample :
    (runUrandom (parse_args "base=16 len=0") constOracle).1
      = [Effect.notice (b16encode (List.replicate 64 0))] ∧
    b16decode (b16encode (List.replicate 64 0)) = some (List.replicate 64 0) ∧
    (List.replicate 64 (0 : Nat)).length = 64 := by
  refine ⟨by decide, by decide, by decide⟩

theorem claim_C2_roundtrip_witness :
    ∃ s : PyStr,
      runUrandom (parse_args "base=64 len=3") constOracle
        = (ccWarn s ++ [dispatchOut (parse_args "base=64 len=3") s], Outcome.ok) ∧
      decodeForBase "64" s
        = some ((List.range (lenOr64 3)).map (fun i => constOracle.bytes i % 256)) ∧
      (((List.range (lenOr64 3)).map (fun i => constOracle.bytes i % 256)).length : Int)
        = if (3 : Int) = 0 then 64 else 3 :=
  claim_C2_roundtrip (parse_args "base=64 len=3") constOracle "64" 3 (by decide) (by decide)
    (by decide) (by decide) (by decide) (by decide) (by decide)
    (Or.inr (Or.inr (Or.inr (Or.inl rfl))))

end Urandom
